import Mathlib

/-!
Verification of the Download Task Queue and Worker Lifecycle subsystem of the
yt-downloader repository.  The Python sources (`yt_downloader/utils.py`,
`yt_downloader/worker.py`, `yt_downloader/app.py`) are shallowly embedded as
executable Lean definitions; Python machine floats appearing in purely
arithmetic positions are modelled as exact rationals, Python `str` values as
`String`, and Python dicts crossing the event channel as association lists.
-/

namespace YtDl

/-! ## Embedding of `yt_downloader/utils.py` -/

/-- Characters rejected by `sanitize_filename` (the Python set `<>:"/\|?*`). -/
def invalidFilenameChars : List Char := ['<', '>', ':', '"', '\\', '/', '|', '?', '*']

/-- Per-character replacement performed by the `sanitize_filename` list
comprehension: characters in the invalid set or with code point below 32
become an underscore. -/
def sanitizeChar (ch : Char) : Char :=
  if ch ∈ invalidFilenameChars ∨ ch.toNat < 32 then '_' else ch

/-- Whitespace characters removed by Python `str.strip()` (ASCII forms). -/
def pyWhitespace : List Char := [' ', '\t', '\n', '\r', '\x0b', '\x0c']

/-- Python `str.strip()` on a character list. -/
def pyStripList (l : List Char) : List Char :=
  ((l.dropWhile (fun c => c ∈ pyWhitespace)).reverse.dropWhile
    (fun c => c ∈ pyWhitespace)).reverse

/-- Python `str.rstrip(cs)` on a character list: drop trailing characters
belonging to `cs`. -/
def pyRstripList (l : List Char) (cs : List Char) : List Char :=
  (l.reverse.dropWhile (fun c => c ∈ cs)).reverse

/-- Embedding of `utils.sanitize_filename` on character lists: replace invalid
characters by `_`, strip whitespace, strip trailing dots and spaces, and fall
back to `"video"` when nothing remains. -/
def sanitizeFilenameList (title : List Char) : List Char :=
  let cleaned := title.map sanitizeChar
  let sanitized := pyRstripList (pyStripList cleaned) ['.', ' ']
  if sanitized.isEmpty then "video".toList else sanitized

/-- Embedding of `utils.sanitize_filename` on strings. -/
def sanitize_filename (title : String) : String :=
  String.mk (sanitizeFilenameList title.toList)

/-- Numeric value of a list of decimal digit characters. -/
def digitsToNat (ds : List Char) : ℕ :=
  ds.foldl (fun acc c => acc * 10 + (c.toNat - 48)) 0

/-- Model of Python `float(text)` on plain decimal literals: an optional sign,
an integer part and an optional fractional part (the exponent, infinity, NaN
and underscore forms accepted by CPython are not exercised by any embedded
call site).  Returns `none` where `float()` raises `ValueError`. -/
def pyFloatCore (l : List Char) : Option ℚ :=
  let signAndRest : ℚ × List Char :=
    match l with
    | '-' :: r => (-1, r)
    | '+' :: r => (1, r)
    | r => (1, r)
  let sign := signAndRest.1
  let rest := signAndRest.2
  let intPart := rest.takeWhile Char.isDigit
  let rest2 := rest.dropWhile Char.isDigit
  match rest2 with
  | [] =>
    if intPart.isEmpty then none
    else some (sign * (digitsToNat intPart : ℚ))
  | '.' :: frac =>
    if frac.all Char.isDigit && !(intPart.isEmpty && frac.isEmpty) then
      some (sign * ((digitsToNat intPart : ℚ)
        + (digitsToNat frac : ℚ) / (10 : ℚ) ^ frac.length))
    else none
  | _ => none

/-- Model of Python `float(text)` including the leading/trailing whitespace
tolerance of the builtin. -/
def pyFloat (s : String) : Option ℚ :=
  pyFloatCore (pyStripList s.toList)

/-- Split a character list on a separator character, Python `str.split(sep)`
style (adjacent separators produce empty components). -/
def splitOnChar (sep : Char) : List Char → List (List Char)
  | [] => [[]]
  | c :: rest =>
    let r := splitOnChar sep rest
    if c = sep then [] :: r
    else
      match r with
      | [] => [[c]]
      | h :: t => (c :: h) :: t

/-- The `ValueError` message raised by `utils.parse_time_input`. -/
def timeFormatError : String := "Неправильний формат часу"

/-- One step of the accumulation loop in `parse_time_input`: the running total
and the `1 → 60 → 3600` multiplier, threaded through `Except` for the raised
`ValueError`s. -/
def parseTimeStep (acc : Except String (ℚ × ℚ)) (component : List Char) :
    Except String (ℚ × ℚ) :=
  match acc with
  | Except.error e => Except.error e
  | Except.ok (total, multiplier) =>
    if component.isEmpty then Except.error timeFormatError
    else
      match pyFloatCore (pyStripList component) with
      | none => Except.error timeFormatError
      | some v => Except.ok (total + v * multiplier, multiplier * 60)

/-- Embedding of `utils.parse_time_input`: strip the input, return `None` when
empty, reject more than three colon-separated components, and otherwise sum
the components weighted by powers of 60 from the right. -/
def parse_time_input (text : String) : Except String (Option ℚ) :=
  let cleaned := pyStripList text.toList
  if cleaned.isEmpty then Except.ok none
  else
    let parts := splitOnChar ':' cleaned
    if parts.length > 3 then Except.error timeFormatError
    else
      match parts.reverse.foldl parseTimeStep (Except.ok (0, 1)) with
      | Except.error e => Except.error e
      | Except.ok (total, _) => Except.ok (some total)

/-! ## Embedding of `DownloadWorker._compute_vbit` (worker.py) -/

/-- The `try: max(float(duration), 1.0) except ValueError: 1.0` step of
`_compute_vbit` applied to the stripped `ffprobe` output. -/
def durValueOf (durOutput : String) : ℚ :=
  match pyFloat durOutput with
  | some v => max v 1
  | none => 1

/-- Arithmetic core of `DownloadWorker._compute_vbit`, starting from the file
size in bytes and the duration value (already floored at 1.0): the float
literal `1.15` is modelled as the exact rational `23/20`, `int(x)` for the
nonnegative `x` arising here as `Int.floor`, and Python `//` as `Int.fdiv`. -/
def computeVbitArith (fileSize : ℕ) (durValue : ℚ) : String :=
  let total : ℤ := Int.floor ((fileSize * 8 : ℚ) / durValue)
  let audio : ℤ := 320000
  let video : ℤ := max 800000 (total - audio)
  let headroom : ℤ := Int.floor ((video : ℚ) * (23 / 20 : ℚ))
  let mbit : ℤ := max (Int.fdiv (headroom + 999999) 1000000) 4
  toString mbit ++ "M"

/-- Embedding of `DownloadWorker._compute_vbit` given the stripped stdout of
the `ffprobe` duration query and the `st_size` of the source file. -/
def compute_vbit (fileSize : ℕ) (durOutput : String) : String :=
  computeVbitArith fileSize (durValueOf durOutput)

/-- Bitrate computation as worded by the specification: a `1.15` headroom
factor applied to the clamped video bitrate, rounded up to the nearest whole
megabit, floored at 4 Mbit, with the total bitrate estimate
`file_size_bytes * 8 / duration` computed over a duration floored at one
second. -/
def computeVbitClaim (fileSize : ℕ) (durationSeconds : ℚ) : String :=
  let dur := max durationSeconds 1
  let total : ℤ := Int.floor ((fileSize * 8 : ℚ) / dur)
  let video : ℤ := max 800000 (total - 320000)
  let headroom : ℤ := Int.floor ((video : ℚ) * (23 / 20 : ℚ))
  let mbit : ℤ := max (Int.ceil ((headroom : ℚ) / 1000000)) 4
  toString mbit ++ "M"

/-! ## Embedding of `_load_queue_state` (app.py) -/

/-- Model of a Python value found in a parsed queue-state JSON document: a
string, `None`, or any other value, the latter carrying only its `str()`
image and its truthiness (all the loader ever asks of a non-string value). -/
inductive PyVal where
  | str (v : String)
  | pyNone
  | other (strImage : String) (truthy : Bool)
deriving DecidableEq, Repr

/-- Python `str(v)`. -/
def PyVal.pyStr : PyVal → String
  | .str v => v
  | .pyNone => "None"
  | .other s _ => s

/-- Python truthiness of the value. -/
def PyVal.truthy : PyVal → Bool
  | .str v => v ≠ ""
  | .pyNone => false
  | .other _ t => t

/-- Python `str.strip()` on strings. -/
def pyStrip (s : String) : String :=
  String.mk (pyStripList s.toList)

/-- One raw item of the persisted queue JSON: each recognised key is either
absent (`none`) or mapped to a Python value. -/
structure RawItem where
  task_id : Option PyVal := none
  title : Option PyVal := none
  status : Option PyVal := none
  path : Option PyVal := none
  url : Option PyVal := none
  created_at : Option PyVal := none
  error : Option PyVal := none
deriving DecidableEq, Repr

/-- A reconciled queue record as `_load_queue_state` builds it (and as
`_save_queue_state` persists it): the `error` key is present only when an
error message is stored. -/
structure QueueEntry where
  task_id : String
  title : String
  status : String
  path : Option String
  url : Option String
  created_at : String
  error : Option String
deriving DecidableEq, Repr

/-- The `allowed_statuses` set of `_load_queue_state`. -/
def allowedStatuses : List String :=
  ["waiting", "downloading", "converting", "done", "error", "cancelled"]

/-- The status reconciliation cascade of `_load_queue_state`: default a falsy
status to `"done"`, map unrecognised statuses to `"done"` (the
`"cancelled"` arm of that branch is unreachable because `"downloading"` and
`"converting"` are recognised), and finally coerce `"downloading"` and
`"converting"` to `"cancelled"`. -/
def loadCoerceStatus (rawStatus : PyVal) : String :=
  let status := if rawStatus.truthy then rawStatus.pyStr else "done"
  let status :=
    if status ∉ allowedStatuses then
      (if status ∈ ["downloading", "converting"] then "cancelled" else "done")
    else status
  if status ∈ ["downloading", "converting"] then "cancelled" else status

/-- Loading of a single raw item by `_load_queue_state`, given the already
seen task ids and the current `datetime.now().isoformat()` string: `none`
when the item is skipped (blank or duplicate id). -/
def loadItem (nowIso : String) (seen : List String) (raw : RawItem) :
    Option QueueEntry :=
  let tid := pyStrip (raw.task_id.getD (PyVal.str "")).pyStr
  if tid = "" ∨ tid ∈ seen then none
  else
    some
      { task_id := tid
        title :=
          let v := raw.title.getD .pyNone
          if v.truthy then v.pyStr else tid
        status := loadCoerceStatus (raw.status.getD .pyNone)
        path :=
          let p := match raw.path.getD .pyNone with
            | .str s => pyStrip s
            | _ => ""
          if p = "" then none else some p
        url :=
          let u := match raw.url.getD .pyNone with
            | .str s => pyStrip s
            | _ => ""
          if u = "" then none else some u
        created_at :=
          match raw.created_at.getD .pyNone with
          | .str s => if s ≠ "" then s else nowIso
          | _ => nowIso
        error :=
          match raw.error.getD .pyNone with
          | .str s => if s ≠ "" then some s else none
          | _ => none }

/-- The item loop of `_load_queue_state`, threading the `seen_ids` set. -/
def loadItemsAux (nowIso : String) : List RawItem → List String → List QueueEntry
  | [], _ => []
  | raw :: rest, seen =>
    match loadItem nowIso seen raw with
    | none => loadItemsAux nowIso rest seen
    | some entry => entry :: loadItemsAux nowIso rest (entry.task_id :: seen)

/-- Embedding of the `items` reconstruction of `_load_queue_state` (non-dict
items, skipped by the `isinstance` guard before any field is read, are not
represented in the input list). -/
def loadQueueItems (nowIso : String) (raws : List RawItem) : List QueueEntry :=
  loadItemsAux nowIso raws []

/-- Projection of a persisted queue record to the raw JSON item
`_save_queue_state` writes for it: all stored fields are strings, absent
optional fields are `null`, and the `error` key is omitted when unset. -/
def entryToRaw (e : QueueEntry) : RawItem :=
  { task_id := some (.str e.task_id)
    title := some (.str e.title)
    status := some (.str e.status)
    path := match e.path with | some p => some (.str p) | none => some .pyNone
    url := match e.url with | some u => some (.str u) | none => some .pyNone
    created_at := some (.str e.created_at)
    error := match e.error with | some m => some (.str m) | none => none }

/-- Status reconciliation as the code actually performs it, stated in closed
form (the amended claim): `downloading`/`converting` become `cancelled`, the
other recognised statuses — including `waiting` — are unchanged, and
unrecognised statuses become `done`. -/
def specLoadStatus (status : String) : String :=
  if status ∈ ["downloading", "converting"] then "cancelled"
  else if status ∈ allowedStatuses then status
  else "done"

/-- Well-formedness of a persisted record as the live coordinator writes
them: a stripped non-blank id, a non-blank title and timestamp, stripped
non-blank optional fields. -/
def EntryWF (e : QueueEntry) : Prop :=
  pyStrip e.task_id = e.task_id ∧ e.task_id ≠ "" ∧ e.title ≠ "" ∧
  e.created_at ≠ "" ∧
  (∀ p, e.path = some p → pyStrip p = p ∧ p ≠ "") ∧
  (∀ u, e.url = some u → pyStrip u = u ∧ u ≠ "") ∧
  (∀ m, e.error = some m → m ≠ "")

/-! ## Embedding of the Task Queue Coordinator (app.py)

The live coordinator state covers exactly the collections mutated by
`_start_worker`, `_poll_queue`, `_maybe_start_next_waiting_task`,
`_activate_pending_worker`, `_cancel_task`, `_remove_history_entry` and
`_update_queue_record`.  ISO `created_at` strings are abstracted to their
numeric timestamps (the value `_task_created_at` parses out of them), and a
`DownloadWorker` thread is abstracted to its coordinator-visible pair of
liveness bit and cancellation flag. -/

/-- Coordinator view of a `DownloadWorker`: whether its thread is alive
(`is_alive`) and whether its cancel event has been set. -/
structure WorkerHandle where
  alive : Bool
  cancelRequested : Bool
deriving DecidableEq, Repr

/-- State of a `TaskRow` widget relevant to the coordinator: the status code,
the full and shortened display titles, the final path and the cancel-button
enabled bit (`mark_cancelling` clears it). -/
structure TaskRowState where
  statusCode : String
  fullTitle : String
  displayTitle : String
  finalPath : Option String
  cancelEnabled : Bool
deriving DecidableEq, Repr

/-- A live queue record (`queue_records[task_id]`, also referenced from
`queue_state["items"]`), with `created_at` abstracted to a rational
timestamp. -/
structure CoordRecord where
  task_id : String
  title : String
  status : String
  path : Option String
  url : Option String
  createdAt : ℚ
  error : Option String
deriving DecidableEq, Repr

/-- Association-list lookup, the embedding of `dict.get`. -/
def alookup {β : Type} : List (String × β) → String → Option β
  | [], _ => none
  | (k1, v) :: rest, k => if k1 = k then some v else alookup rest k

/-- Association-list update `d[k] = v`: replace in place when the key exists,
append otherwise (Python dicts preserve insertion order). -/
def aset {β : Type} (m : List (String × β)) (k : String) (v : β) :
    List (String × β) :=
  if (alookup m k).isSome then
    m.map (fun p => if p.1 = k then (k, v) else p)
  else m ++ [(k, v)]

/-- Association-list removal, the embedding of `dict.pop(k, None)` (and of
the item-list comprehension filtering a task id out). -/
def aremove {β : Type} : List (String × β) → String → List (String × β)
  | [], _ => []
  | (k1, v) :: rest, k =>
    if k1 = k then aremove rest k else (k1, v) :: aremove rest k

/-- The full coordinator state. -/
structure CoordState where
  workers : List (String × WorkerHandle)
  pending : List (String × WorkerHandle)
  rows : List (String × TaskRowState)
  taskOrder : List String
  records : List CoordRecord
  now : ℚ
deriving DecidableEq, Repr

/-- Embedding of `utils.shorten_title` with the default limit of 40. -/
def shorten_title (title : String) : String :=
  if title.length ≤ 40 then title
  else String.mk (title.toList.take 37) ++ "..."

/-- The keyword-argument set accepted by `_update_queue_record` at its call
sites: an outer `none` means the key is not passed, and for `path`/`error`
the inner option is the passed value (possibly `None`). -/
structure RecordChanges where
  status : Option String := none
  path : Option (Option String) := none
  error : Option (Option String) := none
  title : Option String := none
deriving DecidableEq, Repr

/-- Field-update logic of `_update_queue_record` on one record dict: `path`
is stored as `str(value)` when truthy and `None` otherwise, `error` is stored
when truthy and popped otherwise, `title` and `status` are stored as
strings. -/
def applyRecordChanges (r : CoordRecord) (c : RecordChanges) : CoordRecord :=
  let r := match c.status with
    | some st => { r with status := st }
    | none => r
  let r := match c.path with
    | some v =>
      { r with path := match v with
          | some p => if p = "" then none else some p
          | none => none }
    | none => r
  let r := match c.error with
    | some v =>
      { r with error := match v with
          | some m => if m = "" then none else some m
          | none => none }
    | none => r
  match c.title with
  | some t => { r with title := t }
  | none => r

/-- Embedding of `_update_queue_record`: a no-op when `queue_records` has no
(truthy) record for the task, otherwise the in-place dict update followed by
a save (persistence is identified with the `records` list; no embedded call
site passes a `url` change, so the `set_source_url` mirror is never
reached). -/
def update_queue_record (s : CoordState) (tid : String) (c : RecordChanges) :
    CoordState :=
  if (s.records.find? (fun r => r.task_id = tid)).isSome then
    { s with records :=
        s.records.map (fun r => if r.task_id = tid then applyRecordChanges r c else r) }
  else s

/-- The `TaskRow.update_status` method: store the status code and recompute
the action buttons (`_update_actions` shows the cancel button exactly for
`downloading`/`converting`). -/
def rowUpdateStatus (row : TaskRowState) (st : String) : TaskRowState :=
  { row with
    statusCode := st
    cancelEnabled := st ∈ ["downloading", "converting"] }

/-- Embedding of `_cancel_task`: a no-op unless the task has a worker in
`self.workers`; otherwise set the worker's cancel flag (`worker.cancel()`),
disable the row's cancel button (`mark_cancelling`), and update the persisted
record to `cancelled` with `path=None` and `error=None`. -/
def cancel_task (tid : String) (s : CoordState) : CoordState :=
  match alookup s.workers tid with
  | none => s
  | some _ =>
    let workers := s.workers.map (fun p =>
      if p.1 = tid then (p.1, { p.2 with cancelRequested := true }) else p)
    let rows := match alookup s.rows tid with
      | some row => s.rows.map (fun p =>
          if p.1 = tid then (p.1, { row with cancelEnabled := false }) else p)
      | none => s.rows
    update_queue_record { s with workers := workers, rows := rows } tid
      { status := some "cancelled"
        path := some none
        error := some none }

/-- Embedding of `_remove_queue_record`: drop the record, drop any pending
worker, filter the persisted items and save. -/
def remove_queue_record (tid : String) (s : CoordState) : CoordState :=
  { s with
    pending := aremove s.pending tid
    records := s.records.filter (fun r => r.task_id ≠ tid) }

/-- Embedding of `_remove_history_entry`: a no-op when the row is missing,
when the row status is `downloading`/`converting`, or when a live worker
exists; otherwise drop the task from the pending set, the rows, the order
list and the persisted records. -/
def remove_history_entry (tid : String) (s : CoordState) : CoordState :=
  match alookup s.rows tid with
  | none => s
  | some row =>
    if row.statusCode ∈ ["downloading", "converting"] then s
    else if (match alookup s.workers tid with
        | some w => w.alive
        | none => false) then s
    else
      let s := { s with
        pending := aremove s.pending tid
        rows := aremove s.rows tid
        taskOrder := s.taskOrder.erase tid }
      remove_queue_record tid s

/-- Embedding of `_task_created_at`: the parsed `created_at` of the queue
record, falling back to the current clock when the record is missing (the
unparsable-string fallback is folded into the missing case since timestamps
are abstracted to numbers). -/
def task_created_at (s : CoordState) (tid : String) : ℚ :=
  match s.records.find? (fun r => r.task_id = tid) with
  | some r => r.createdAt
  | none => s.now

/-- Embedding of `_has_running_workers`. -/
def has_running_workers (s : CoordState) : Bool :=
  s.workers.any (fun p => p.2.alive)

/-- Embedding of `_activate_pending_worker`: pop the pending worker; when its
row has disappeared just drop the stale record, otherwise flip the row and
record to `downloading`, publish the worker in `self.workers` and start its
thread. -/
def activate_pending_worker (tid : String) (s : CoordState) : CoordState :=
  match alookup s.pending tid with
  | none => s
  | some w =>
    let s1 := { s with pending := aremove s.pending tid }
    match alookup s1.rows tid with
    | none => remove_queue_record tid s1
    | some row =>
      let s2 := { s1 with rows := s1.rows.map (fun p =>
        if p.1 = tid then (p.1, rowUpdateStatus row "downloading") else p) }
      let s3 := update_queue_record s2 tid { status := some "downloading" }
      { s3 with workers := aset s3.workers tid { w with alive := true } }

/-- Embedding of `_maybe_start_next_waiting_task`: when no worker is running
and tasks are pending, activate the first pending task id in stable
creation-time order (`sorted(self.pending_workers, key=self._task_created_at)`). -/
def maybe_start_next_waiting_task (s : CoordState) : CoordState :=
  if has_running_workers s then s
  else if s.pending.isEmpty then s
  else
    match (s.pending.map Prod.fst).mergeSort
        (fun a b => task_created_at s a ≤ task_created_at s b) with
    | [] => s
    | tid :: _ => activate_pending_worker tid s

/-- Embedding of `_start_all_pending_tasks` (taken when sequential mode is
off while tasks are pending). -/
def start_all_pending_tasks (s : CoordState) : CoordState :=
  ((s.pending.map Prod.fst).mergeSort
    (fun a b => task_created_at s a ≤ task_created_at s b)).foldl
    (fun acc tid => activate_pending_worker tid acc) s

/-- Embedding of the queue-relevant tail of `_start_worker`: compute the
admission status, create the row, the record and the worker, and either start
it immediately or park it in the pending set (re-running the admission check
in the latter case). -/
def start_worker (tid title url : String) (createdAt : ℚ) (sequential : Bool)
    (s : CoordState) : CoordState :=
  let initialStatus :=
    if sequential ∧ (has_running_workers s ∨ ¬ s.pending.isEmpty) then "waiting"
    else "downloading"
  let row : TaskRowState :=
    { statusCode := initialStatus
      fullTitle := title
      displayTitle := shorten_title title
      finalPath := none
      cancelEnabled := initialStatus ∈ ["downloading", "converting"] }
  let record : CoordRecord :=
    { task_id := tid
      title := title
      status := initialStatus
      path := none
      url := some url
      createdAt := createdAt
      error := none }
  let s1 := { s with
    rows := (tid, row) :: s.rows
    taskOrder := tid :: s.taskOrder
    records := record :: s.records }
  let worker : WorkerHandle := { alive := false, cancelRequested := false }
  if initialStatus = "waiting" then
    maybe_start_next_waiting_task
      { s1 with pending := aset s1.pending tid worker }
  else
    { s1 with workers := aset s1.workers tid { worker with alive := true } }

/-! ## Embedding of the event channel and `_poll_queue` dispatch -/

/-- A value carried in an event dict: a string, a rational (Python float), a
boolean or `None`. -/
inductive EVal where
  | s (v : String)
  | q (v : ℚ)
  | b (v : Bool)
  | none
deriving DecidableEq, Repr

/-- Python `str()` of an event value (rationals never reach a `str()` site in
the dispatcher, so their exact rendering is irrelevant). -/
def EVal.pyStr : EVal → String
  | .s v => v
  | .q v => toString v
  | .b true => "True"
  | .b false => "False"
  | .none => "None"

/-- Python truthiness of an event value. -/
def EVal.truthy : EVal → Bool
  | .s v => v ≠ ""
  | .q v => v ≠ 0
  | .b v => v
  | .none => false

/-- An event dict as placed on the shared queue by `DownloadWorker._emit`. -/
def EventDict : Type := List (String × EVal)

instance : DecidableEq EventDict := by
  unfold EventDict
  infer_instance

/-- The `_emit` wrapper of the worker: a dict of `task_id`, `type` and the
payload pairs. -/
def mkEvent (taskId ty : String) (payload : List (String × EVal)) : EventDict :=
  ("task_id", EVal.s taskId) :: ("type", EVal.s ty) :: payload

/-- Dispatch of one drained event by `_poll_queue`: resolve the task row
(silently dropping events of unknown tasks), then apply the per-type
branch.  The display log and the message boxes have no coordinator state. -/
def dispatchEvent (s : CoordState) (event : EventDict) : CoordState :=
  let taskId := (EVal.pyStr ((alookup event "task_id").getD (EVal.s "")))
  match alookup s.rows taskId with
  | Option.none => s
  | some row =>
    let ty := alookup event "type"
    if ty = some (EVal.s "log") then s
    else if ty = some (EVal.s "status") then
      let status := (EVal.pyStr ((alookup event "status").getD (EVal.s "")))
      if status = "" then s
      else
        let s1 := { s with rows := s.rows.map (fun p =>
          if p.1 = taskId then (p.1, rowUpdateStatus row status) else p) }
        if status = "cancelled" then
          update_queue_record s1 taskId
            { status := some status
              path := some Option.none
              error := some Option.none }
        else update_queue_record s1 taskId { status := some status }
    else if ty = some (EVal.s "title") then
      let title := (EVal.pyStr ((alookup event "title").getD (EVal.s row.displayTitle)))
      let s1 := { s with rows := s.rows.map (fun p =>
        if p.1 = taskId
        then (p.1, { row with
          fullTitle := title
          displayTitle := shorten_title title })
        else p) }
      update_queue_record s1 taskId { title := some title }
    else if ty = some (EVal.s "done") then
      let pathValue := (alookup event "path").getD EVal.none
      if pathValue.truthy then
        let finalPath := pathValue.pyStr
        let row1 := rowUpdateStatus { row with finalPath := some finalPath } "done"
        let s1 := { s with rows := s.rows.map (fun p =>
          if p.1 = taskId then (p.1, row1) else p) }
        update_queue_record s1 taskId
          { status := some "done"
            path := some (some finalPath)
            title := some row1.fullTitle
            error := some Option.none }
      else s
    else if ty = some (EVal.s "error") then
      let message := (EVal.pyStr ((alookup event "message").getD (EVal.s "")))
      update_queue_record s taskId
        { status := some "error"
          error := some (if message = "" then Option.none else some message)
          path := some Option.none }
    else s

/-! ## Embedding of `DownloadWorker.run` (worker.py)

The worker thread is embedded as a state-and-exception program over the
emitted event list: external effects (metadata fetch, the yt-dlp download,
every `subprocess` invocation, file sizes and library collision renaming) are
supplied by an environment oracle, the cancellation flag is modelled by the
index of the first flag observation that reads set, localized log-message
text is abstracted to its translation key, and filesystem renames carry file
names only. -/

/-- Python `str.lower()` (the probed codec names are ASCII). -/
def pyLower (s : String) : String :=
  String.mk (s.toList.map Char.toLower)

/-- Python `pathlib.Path.suffix` of a path string: the final extension of
the last component, empty for dotless or dot-leading names. -/
def pathSuffix (name : String) : String :=
  let base := (splitOnChar '/' name.toList).getLastD []
  let ext := base.reverse.takeWhile (fun c => c ≠ '.')
  if ext.length + 1 < base.length then String.mk ('.' :: ext.reverse) else ""

/-- The localization lookup `self._t(key, ...)`, abstracted to the key (the
message text never influences control flow or the event shapes). -/
def workerMsg (key : String) : String := key

/-- Exceptions that unwind `DownloadWorker.run`: `DownloadCancelled` or any
other exception carrying its `str()`. -/
inductive RunExc where
  | cancelled
  | failure (msg : String)
deriving DecidableEq, Repr

/-- Mutable state threaded through a run: how many times the cancel flag has
been observed, how many external processes have been launched, and the
events emitted so far. -/
structure RunSt where
  obs : ℕ
  procIdx : ℕ
  events : List EventDict

/-- The worker monad: state plus the exceptions of the run body (events
emitted before an exception survive on the queue, hence state is kept on the
error path). -/
def WM (α : Type) : Type := RunSt → Except RunExc α × RunSt

/-- Return for the worker monad. -/
def wmPure {α : Type} (a : α) : WM α := fun st => (Except.ok a, st)

/-- Sequencing for the worker monad. -/
def wmBind {α β : Type} (x : WM α) (f : α → WM β) : WM β := fun st =>
  match x st with
  | (Except.ok a, st1) => f a st1
  | (Except.error e, st1) => (Except.error e, st1)

instance instMonadWM : Monad WM where
  pure := wmPure
  bind := wmBind

/-- `self._emit(event_type, **payload)`. -/
def wmEmit (taskId ty : String) (payload : List (String × EVal)) : WM Unit :=
  fun st => (Except.ok (),
    { st with events := st.events ++ [mkEvent taskId ty payload] })

/-- Raise an exception. -/
def wmThrow {α : Type} (e : RunExc) : WM α :=
  fun st => (Except.error e, st)

/-- One observation of `self._cancel_event.is_set()`. -/
def obsCancel (env0 : Option ℕ) : WM Bool :=
  fun st =>
    (Except.ok (match env0 with
      | none => false
      | some j => decide (j ≤ st.obs)),
     { st with obs := st.obs + 1 })

/-- The result of one external process invocation: its captured stdout,
whether it exited with status zero, and the `str()` of the
`CalledProcessError` raised otherwise. -/
structure ProcResult where
  stdout : String
  exitOk : Bool
  errMsg : String
deriving Repr

/-- One progress dict passed to the `progress_hook` closure; values are
already coerced through the hook's `float(... or 0)`/`try` logic, with
`none` covering missing, `None` and unconvertible entries. -/
structure HookDict where
  status : Option String := none
  downloadedBytes : Option ℚ := none
  totalBytes : Option ℚ := none
  totalBytesEstimate : Option ℚ := none
  fragmentIndex : Option ℚ := none
  fragmentCount : Option ℚ := none
  speed : Option ℚ := none

/-- Metadata as `_ensure_metadata` consumes it. -/
structure WorkerMeta where
  title : Option String := none
  duration : Option ℚ := none

/-- The external world of one run. -/
structure WorkerEnv where
  ffmpegFound : Bool
  ffprobeFound : Bool
  metadata : Except String WorkerMeta
  hookCalls : List HookDict
  download : Except String String
  procs : ℕ → ProcResult
  srcFileSize : ℕ
  cancelFrom : Option ℕ
  uniqueName : String → String

/-- The constructor parameters of a `DownloadWorker` after `__init__`
normalisation (`url.strip()`, `max(start_seconds, 0.0)`). -/
structure WorkerParams where
  task_id : String
  url : String
  title : Option String
  separate_folder : Bool
  convert_to_mp4 : Bool
  start_seconds : ℚ
  end_seconds : Option ℚ

/-- `self._check_cancelled()`. -/
def check_cancelled (env : WorkerEnv) : WM Unit := do
  let b ← obsCancel env.cancelFrom
  if b then wmThrow RunExc.cancelled else pure ()

/-- Fetch the next external process result. -/
def nextProc (env : WorkerEnv) : WM ProcResult :=
  fun st => (Except.ok (env.procs st.procIdx), { st with procIdx := st.procIdx + 1 })

/-- Embedding of `self._run(args, ...)`: a cancel check on entry, the
process execution, the post-wait flag check (covering the kill-on-timeout
path), and on a non-zero exit the `except CalledProcessError` re-check
before the error propagates. -/
def wmRunProc (env : WorkerEnv) (capture : Bool) : WM String := do
  check_cancelled env
  let res ← nextProc env
  let b ← obsCancel env.cancelFrom
  if b then wmThrow RunExc.cancelled
  else if !res.exitOk then do
    let b2 ← obsCancel env.cancelFrom
    if b2 then wmThrow RunExc.cancelled
    else wmThrow (RunExc.failure res.errMsg)
  else pure (if capture then res.stdout else "")

/-- `self._log(message)`. -/
def wmLog (w : WorkerParams) (key : String) : WM Unit :=
  wmEmit w.task_id "log" [("message", EVal.s (workerMsg key))]

/-- `self._status(status)`. -/
def wmStatus (w : WorkerParams) (st : String) : WM Unit :=
  wmEmit w.task_id "status" [("status", EVal.s st)]

/-- Speed rendering of the hook (`f"{speed_mib:.1f} MiB/s"`); the one-decimal
float formatting is abstracted. -/
def speedDisplayOf (sv : ℚ) : String :=
  toString (sv / 1024 / 1024) ++ " MiB/s"

/-- The `progress_hook` closure of `run`. -/
def progress_hook (w : WorkerParams) (d : HookDict) : WM Unit :=
  if d.status = some "downloading" then
    let downloaded := d.downloadedBytes.getD 0
    let total :=
      if d.totalBytes.getD 0 ≠ 0 then d.totalBytes.getD 0
      else d.totalBytesEstimate.getD 0
    let progress1 : ℚ := if total > 0 then downloaded / total * 100 else 0
    let progress2 : ℚ :=
      if progress1 ≤ 0 then
        (let fi := d.fragmentIndex.getD 0
         let fc := d.fragmentCount.getD 0
         if fi > 0 ∧ fc > 0 then min (fi / fc * 100) 100 else 0)
      else progress1
    let speedDisplay := match d.speed with
      | some sv => speedDisplayOf sv
      | none => "-"
    wmEmit w.task_id "progress"
      [("progress", EVal.q progress2), ("speed", EVal.s speedDisplay),
        ("status", EVal.s "downloading")]
  else if d.status = some "finished" then
    wmEmit w.task_id "progress"
      [("progress", EVal.q 100), ("status", EVal.s "converting")]
  else pure ()

/-- `self._ensure_metadata()`: the backend fetch, falling back to the cached
title when one is set, re-raising otherwise. -/
def ensure_metadata (w : WorkerParams) (env : WorkerEnv) : WM WorkerMeta :=
  match env.metadata with
  | Except.ok m => pure m
  | Except.error e =>
    match w.title with
    | some t0 =>
      if t0 ≠ "" then pure { title := some t0, duration := none }
      else wmThrow (RunExc.failure e)
    | none => wmThrow (RunExc.failure e)

/-- The body of `DownloadWorker.run up` to the try-block boundary: every
status/log/title/progress/done event, every cancel checkpoint and every
external invocation in source order; filesystem renames and directory
bookkeeping carry no coordinator-visible state. -/
def worker_run_body (w : WorkerParams) (env : WorkerEnv) : WM Unit := do
  let _ ← (if w.url = "" then wmThrow (RunExc.failure (workerMsg "error_empty_url"))
    else pure ())
  let _ ← (match w.end_seconds with
    | some e =>
      if e ≤ w.start_seconds then
        wmThrow (RunExc.failure (workerMsg "error_end_before_start"))
      else pure ()
    | none => pure ())
  let _ ← (if !env.ffmpegFound then
      wmThrow (RunExc.failure (workerMsg "error_missing_ffmpeg"))
    else pure ())
  let _ ← (if !env.ffprobeFound then
      wmThrow (RunExc.failure (workerMsg "error_missing_ffprobe"))
    else pure ())
  wmLog w "log_root"
  check_cancelled env
  wmLog w "log_workdir"
  wmStatus w "downloading"
  check_cancelled env
  let meta ← ensure_metadata w env
  let title := match meta.title with
    | some t0 => if t0 = "" then "video" else t0
    | none => "video"
  let sanitizedTitle := sanitize_filename title
  wmLog w "log_title"
  wmEmit w.task_id "title" [("title", EVal.s title)]
  check_cancelled env
  let duration : ℚ := meta.duration.getD 0
  let isStartZero : Bool := w.start_seconds < 0.5
  let isEndFull : Bool := match w.end_seconds with
    | none => true
    | some e => decide (duration > 0 ∧ e ≥ duration - 0.5)
  let clipRequested := !(isStartZero && isEndFull)
  let _ ← (if clipRequested then wmLog w "log_segment" else pure ())
  wmLog w "log_download_step"
  env.hookCalls.forM (progress_hook w)
  let src ← (match env.download with
    | Except.ok srcName => pure srcName
    | Except.error msg => wmThrow (RunExc.failure msg))
  let clipAppliedDuringDownload := clipRequested
  let _ ← (if src = "" then
      wmThrow (RunExc.failure (workerMsg "error_missing_source"))
    else pure ())
  check_cancelled env
  let out1 ← wmRunProc env true
  let out2 ← wmRunProc env true
  let videoCodec := if pyStrip out1 = "" then "unknown" else pyStrip out1
  let audioCodec := if pyStrip out2 = "" then "unknown" else pyStrip out2
  wmLog w "log_codecs"
  let finalAndNeeds : String × Bool :=
    if w.convert_to_mp4 then
      (sanitizedTitle ++ ".mp4",
        !(pyLower videoCodec = "h264" && pyLower audioCodec = "aac"))
    else
      let suffix := pathSuffix src
      (if suffix ≠ "" then sanitizedTitle ++ suffix else sanitizedTitle, false)
  let finalName := finalAndNeeds.1
  let needsTranscode := finalAndNeeds.2
  let finalDestination ← (
    if !needsTranscode && !clipAppliedDuringDownload then do
      wmLog w "log_skip_transcode"
      check_cancelled env
      pure (some finalName)
    else do
      wmStatus w "converting"
      let _ ← (if needsTranscode then do
          let durOut ← wmRunProc env true
          let _vbit := compute_vbit env.srcFileSize (pyStrip durOut)
          wmLog w "log_target_bitrate"
          wmLog w "log_transcoding"
        else wmLog w "log_copy_streams")
      let _ ← wmRunProc env false
      pure (some finalName))
  match finalDestination with
  | none => wmThrow (RunExc.failure (workerMsg "error_final_file"))
  | some fd => do
    check_cancelled env
    let fd2 := if !w.separate_folder then env.uniqueName fd else fd
    check_cancelled env
    wmStatus w "done"
    wmEmit w.task_id "done" [("path", EVal.s fd2)]
    wmLog w "log_done_path"
    pure ()

/-- The visible outcome of one run. -/
inductive RunOutcome where
  | success
  | cancelled
  | failed (msg : String)
deriving DecidableEq, Repr

/-- The `cancelled` flag the `finished` event carries. -/
def outcomeCancelledFlag : RunOutcome → Bool
  | RunOutcome.cancelled => true
  | _ => false

/-- The `error` value (`self.error`) the `finished` event carries. -/
def outcomeError : RunOutcome → Option String
  | RunOutcome.failed m => some m
  | _ => none

/-- Embedding of `DownloadWorker.run`: the body wrapped in the
`except DownloadCancelled` / `except Exception` handlers and the `finally`
block that always emits the `finished` event last. -/
def worker_run (w : WorkerParams) (env : WorkerEnv) :
    RunOutcome × List EventDict :=
  match worker_run_body w env { obs := 0, procIdx := 0, events := [] } with
  | (Except.ok _, st) =>
    (RunOutcome.success,
      st.events ++ [mkEvent w.task_id "finished"
        [("cancelled", EVal.b false), ("error", EVal.none)]])
  | (Except.error RunExc.cancelled, st) =>
    (RunOutcome.cancelled,
      (st.events
        ++ [mkEvent w.task_id "status" [("status", EVal.s "cancelled")],
            mkEvent w.task_id "log"
              [("message", EVal.s (workerMsg "log_cancelled"))]])
        ++ [mkEvent w.task_id "finished"
          [("cancelled", EVal.b true), ("error", EVal.none)]])
  | (Except.error (RunExc.failure msg), st) =>
    (RunOutcome.failed msg,
      (st.events
        ++ [mkEvent w.task_id "status" [("status", EVal.s "error")],
            mkEvent w.task_id "error" [("error", EVal.s msg)],
            mkEvent w.task_id "log"
              [("message", EVal.s (workerMsg "log_error_message"))]])
        ++ [mkEvent w.task_id "finished"
          [("cancelled", EVal.b false), ("error", EVal.s msg)]])

/-- Recogniser for `finished` events on the channel. -/
def isFinishedEvent (ev : EventDict) : Bool :=
  alookup ev "type" = some (EVal.s "finished")

/-! ## Sequential-mode transition system -/

/-- The reap step at the bottom of `_poll_queue`: pop every worker whose
thread has finished. -/
def reap_finished_workers (s : CoordState) : CoordState :=
  { s with workers := s.workers.filter (fun p => p.2.alive) }

/-- The tail of a `_poll_queue` tick under sequential mode: reap finished
workers, then run the admission check. -/
def poll_tick_sequential (s : CoordState) : CoordState :=
  maybe_start_next_waiting_task (reap_finished_workers s)

/-- A worker thread completing its `run` (its `is_alive` flips to false);
this happens outside the coordinator and is visible to it at the next
poll. -/
def finish_worker (tid : String) (s : CoordState) : CoordState :=
  { s with workers := s.workers.map (fun p =>
      if p.1 = tid then (p.1, { p.2 with alive := false }) else p) }

/-- Number of workers whose thread is alive. -/
def countAlive (m : List (String × WorkerHandle)) : ℕ :=
  (m.filter (fun p => p.2.alive)).length

/-- One step of the coordinator with the sequential-downloads option on:
a submission with a fresh task id, an event dispatch, a cancel, a removal, a
worker thread finishing, or a poll tick. -/
inductive SeqStep : CoordState → CoordState → Prop where
  | submit (tid title url : String) (createdAt : ℚ) (s : CoordState)
      (hfreshW : alookup s.workers tid = none)
      (hfreshP : alookup s.pending tid = none) :
      SeqStep s (start_worker tid title url createdAt true s)
  | dispatch (ev : EventDict) (s : CoordState) : SeqStep s (dispatchEvent s ev)
  | cancel (tid : String) (s : CoordState) : SeqStep s (cancel_task tid s)
  | remove (tid : String) (s : CoordState) :
      SeqStep s (remove_history_entry tid s)
  | finish (tid : String) (s : CoordState) : SeqStep s (finish_worker tid s)
  | poll (s : CoordState) : SeqStep s (poll_tick_sequential s)

/-- The empty coordinator state the application starts from (before history
restoration, which touches only rows and records). -/
def initState : CoordState :=
  { workers := [], pending := [], rows := [], taskOrder := [], records := [],
    now := 0 }

/-- Reachability under sequential mode. -/
def ReachableSeq (s : CoordState) : Prop :=
  Relation.ReflTransGen SeqStep initState s

/-- The inductive invariant: worker keys are distinct and at most one worker
thread is alive. -/
def WorkersInv (s : CoordState) : Prop :=
  (s.workers.map Prod.fst).Nodup ∧ countAlive s.workers ≤ 1

/-! ## Concrete states used as witnesses and counterexamples -/

/-- The terminal statuses of the task state machine. -/
def TerminalStatuses : List String := ["done", "error", "cancelled"]

/-- Reaped-state well-formedness: every task whose persisted record reached a
terminal status has had its worker handle released from `self.workers` (the
dispatch loop pops finished workers on every 200 ms tick, and the `finished`
event is the release signal). -/
def ReapedState (s : CoordState) : Prop :=
  ∀ r ∈ s.records, r.status ∈ TerminalStatuses → alookup s.workers r.task_id = none

/-- A row for a task currently downloading. -/
def exRowDownloading : TaskRowState :=
  { statusCode := "downloading", fullTitle := "Clip A", displayTitle := "Clip A",
    finalPath := none, cancelEnabled := true }

/-- A row for a task waiting in the pending set. -/
def exRowWaiting : TaskRowState :=
  { statusCode := "waiting", fullTitle := "Clip B", displayTitle := "Clip B",
    finalPath := none, cancelEnabled := false }

/-- A row for a completed task. -/
def exRowDone : TaskRowState :=
  { statusCode := "done", fullTitle := "Clip C", displayTitle := "Clip C",
    finalPath := some "/lib/c.mp4", cancelEnabled := false }

/-- A record for a task currently downloading. -/
def exRecDownloading : CoordRecord :=
  { task_id := "t1", title := "Clip A", status := "downloading",
    path := none, url := some "https://youtu.be/a", createdAt := 10,
    error := none }

/-- A record for a waiting task. -/
def exRecWaiting : CoordRecord :=
  { task_id := "t1", title := "Clip B", status := "waiting", path := none,
    url := some "https://youtu.be/b", createdAt := 20, error := none }

/-- A record for a completed task. -/
def exRecDone : CoordRecord :=
  { task_id := "t0", title := "Clip C", status := "done",
    path := some "/lib/c.mp4", url := some "https://youtu.be/c",
    createdAt := 5, error := none }

/-- A coordinator state with one running task `t1`. -/
def exStateRunning : CoordState :=
  { workers := [("t1", { alive := true, cancelRequested := false })],
    pending := [], rows := [("t1", exRowDownloading)], taskOrder := ["t1"],
    records := [exRecDownloading], now := 100 }

/-- The downloading record with a partial path already stored. -/
def exRecDownloadingP : CoordRecord :=
  { exRecDownloading with path := some "/tmp/partial.mp4" }

/-- The running state with the partial path stored on its record. -/
def exStateRunningP : CoordState :=
  { exStateRunning with records := [exRecDownloadingP] }

/-- A coordinator state with one waiting task `t1` only (sequential admission
deferred it and nothing is active). -/
def exStateWaiting : CoordState :=
  { workers := [], pending := [("t1", { alive := false, cancelRequested := false })],
    rows := [("t1", exRowWaiting)], taskOrder := ["t1"],
    records := [exRecWaiting], now := 100 }

/-- A coordinator state with a reaped terminal task `t0` and a running task
`t1`. -/
def exStateMixed : CoordState :=
  { workers := [("t1", { alive := true, cancelRequested := false })],
    pending := [],
    rows := [("t0", exRowDone), ("t1", exRowDownloading)],
    taskOrder := ["t1", "t0"],
    records := [exRecDone, exRecDownloading], now := 100 }

/-! ## Supporting lemmas -/

theorem head_dropWhile_false {α : Type} (p : α → Bool) (l : List α) {a : α}
    (h : (l.dropWhile p).head? = some a) : p a = false := by
  induction l with
  | nil => simp [List.dropWhile] at h
  | cons x xs ih =>
    rw [List.dropWhile_cons] at h
    by_cases hp : p x
    · rw [if_pos hp] at h
      exact ih h
    · rw [if_neg hp] at h
      simp only [List.head?_cons, Option.some.injEq] at h
      subst h
      exact Bool.of_not_eq_true hp

theorem mem_pyRstripList {c : Char} {l cs : List Char}
    (h : c ∈ pyRstripList l cs) : c ∈ l := by
  unfold pyRstripList at h
  rw [List.mem_reverse] at h
  have := (List.dropWhile_sublist (l := l.reverse)
    (fun c => decide (c ∈ cs))).subset h
  rwa [List.mem_reverse] at this

theorem mem_pyStripList {c : Char} {l : List Char}
    (h : c ∈ pyStripList l) : c ∈ l := by
  unfold pyStripList at h
  rw [List.mem_reverse] at h
  have h1 := (List.dropWhile_sublist
    (l := (l.dropWhile (fun c => decide (c ∈ pyWhitespace))).reverse)
    (fun c => decide (c ∈ pyWhitespace))).subset h
  rw [List.mem_reverse] at h1
  exact (List.dropWhile_sublist (l := l)
    (fun c => decide (c ∈ pyWhitespace))).subset h1

theorem getLast_pyRstripList_not_mem {l cs : List Char} {c : Char}
    (h : (pyRstripList l cs).getLast? = some c) : c ∉ cs := by
  unfold pyRstripList at h
  rw [List.getLast?_reverse] at h
  have := head_dropWhile_false (fun c => decide (c ∈ cs)) l.reverse h
  simpa using this

theorem sanitizeChar_safe (c : Char) :
    sanitizeChar c ∉ invalidFilenameChars ∧ 32 ≤ (sanitizeChar c).toNat := by
  unfold sanitizeChar
  split
  · decide
  · next hc =>
    push_neg at hc
    exact ⟨hc.1, hc.2⟩

theorem fdiv_add_eq_ceil (h : ℤ) :
    Int.fdiv (h + 999999) 1000000 = ⌈(h : ℚ) / 1000000⌉ := by
  have h2 : ⌈(h : ℚ) / 1000000⌉ = -⌊-((h : ℚ) / 1000000)⌋ := by
    rw [Int.floor_neg, neg_neg]
  have h3 : -((h : ℚ) / 1000000) = ((-h : ℤ) : ℚ) / ((1000000 : ℕ) : ℚ) := by
    push_cast
    ring
  rw [h2, h3, Rat.floor_intCast_div_natCast, Int.fdiv_eq_ediv _ (by norm_num)]
  omega

theorem loadCoerceStatus_str (s : String) :
    loadCoerceStatus (.str s) = specLoadStatus s := by
  by_cases hdl : s ∈ ["downloading", "converting"]
  · simp only [List.mem_cons, List.not_mem_nil, or_false] at hdl
    rcases hdl with rfl | rfl <;> decide
  · by_cases hall : s ∈ allowedStatuses
    · have hmem : s = "waiting" ∨ s = "done" ∨ s = "error" ∨ s = "cancelled" := by
        unfold allowedStatuses at hall
        simp only [List.mem_cons, List.not_mem_nil, or_false] at hall hdl
        push_neg at hdl
        tauto
      rcases hmem with rfl | rfl | rfl | rfl <;> decide
    · by_cases hse : s = ""
      · subst hse
        decide
      · simp [loadCoerceStatus, specLoadStatus, PyVal.truthy, PyVal.pyStr,
          hse, hall, hdl]

theorem loadItem_entryToRaw (nowIso : String) (seen : List String)
    (e : QueueEntry) (hwf : EntryWF e) (hs : e.task_id ∉ seen) :
    loadItem nowIso seen (entryToRaw e)
      = some { e with status := specLoadStatus e.status } := by
  obtain ⟨h1, h2, h3, h4, h5, h6, h7⟩ := hwf
  unfold loadItem entryToRaw
  simp only [Option.getD_some, PyVal.pyStr, h1]
  rw [if_neg (by simp [h2, hs])]
  have htitle : (if (PyVal.str e.title).truthy then (PyVal.str e.title).pyStr
      else e.task_id) = e.title := by
    simp [PyVal.truthy, PyVal.pyStr, h3]
  have hstat := loadCoerceStatus_str e.status
  have hpath : (let p := match
        (match e.path with
          | some p => some (PyVal.str p)
          | none => some PyVal.pyNone).getD PyVal.pyNone with
        | .str s => pyStrip s
        | _ => "";
      if p = "" then none else some p) = e.path := by
    cases hp : e.path with
    | none => simp
    | some p =>
      obtain ⟨hp1, hp2⟩ := h5 p hp
      simp [hp1, hp2]
  have hurl : (let u := match
        (match e.url with
          | some u => some (PyVal.str u)
          | none => some PyVal.pyNone).getD PyVal.pyNone with
        | .str s => pyStrip s
        | _ => "";
      if u = "" then none else some u) = e.url := by
    cases hu : e.url with
    | none => simp
    | some u =>
      obtain ⟨hu1, hu2⟩ := h6 u hu
      simp [hu1, hu2]
  have hcre : (match (some (PyVal.str e.created_at)).getD PyVal.pyNone with
      | .str s => if s ≠ "" then s else nowIso
      | _ => nowIso) = e.created_at := by
    simp [h4]
  have herr : (match
      (match e.error with
        | some m => some (PyVal.str m)
        | none => none).getD PyVal.pyNone with
      | .str s => if s ≠ "" then some s else none
      | _ => none) = e.error := by
    cases he : e.error with
    | none => simp
    | some m =>
      have := h7 m he
      simp [this]
  rw [Option.some_inj]
  refine QueueEntry.mk.injEq .. ▸ ⟨rfl, htitle, hstat, hpath, hurl, hcre, herr⟩

theorem loadItemsAux_entryToRaw (nowIso : String) (es : List QueueEntry)
    (seen : List String) (hwf : ∀ e ∈ es, EntryWF e)
    (hnd : (es.map QueueEntry.task_id).Nodup)
    (hseen : ∀ e ∈ es, e.task_id ∉ seen) :
    loadItemsAux nowIso (es.map entryToRaw) seen
      = es.map (fun e => { e with status := specLoadStatus e.status }) := by
  induction es generalizing seen with
  | nil => rfl
  | cons e rest ih =>
    simp only [List.map_cons, loadItemsAux]
    rw [loadItem_entryToRaw nowIso seen e (hwf e (List.mem_cons_self e rest))
      (hseen e (List.mem_cons_self e rest))]
    simp only [List.map_cons] at hnd
    have hnd2 := List.nodup_cons.mp hnd
    dsimp only
    congr 1
    apply ih
    · intro x hx
      exact hwf x (List.mem_cons_of_mem e hx)
    · exact hnd2.2
    · intro x hx
      simp only [List.mem_cons, not_or]
      constructor
      · intro habs
        exact hnd2.1 (habs ▸ List.mem_map_of_mem QueueEntry.task_id hx)
      · exact hseen x (List.mem_cons_of_mem e hx)

theorem alookup_map_key {β : Type} (m : List (String × β)) (tid k : String)
    (f : β → β) :
    alookup (m.map (fun p => if p.1 = tid then (p.1, f p.2) else p)) k
      = if k = tid then (alookup m k).map f else alookup m k := by
  induction m with
  | nil =>
    simp only [List.map_nil]
    unfold alookup
    split <;> rfl
  | cons p rest ih =>
    obtain ⟨k1, v⟩ := p
    simp only [List.map_cons]
    by_cases h1 : k1 = tid
    · rw [if_pos h1]
      by_cases h2 : k1 = k
      · subst h2
        simp only [alookup, if_pos rfl, if_pos h1]
        simp
      · simp only [alookup, if_neg h2, ih]
    · rw [if_neg h1]
      by_cases h2 : k1 = k
      · subst h2
        have hkt : ¬ k1 = tid := h1
        simp [alookup, hkt]
      · simp only [alookup, if_neg h2, ih]

theorem map_key_idem {β : Type} (m : List (String × β)) (tid : String)
    (f : β → β) (hf : ∀ b, f (f b) = f b) :
    ((m.map (fun p => if p.1 = tid then (p.1, f p.2) else p)).map
        (fun p => if p.1 = tid then (p.1, f p.2) else p))
      = m.map (fun p => if p.1 = tid then (p.1, f p.2) else p) := by
  rw [List.map_map]
  apply List.map_congr_left
  intro p _
  by_cases h : p.1 = tid
  · simp [Function.comp, h, hf]
  · simp [Function.comp, h]

theorem applyRecordChanges_task_id (r : CoordRecord) (c : RecordChanges) :
    (applyRecordChanges r c).task_id = r.task_id := by
  obtain ⟨cs, cp, ce, ct⟩ := c
  cases cs <;> cases cp <;> cases ce <;> cases ct <;> rfl

theorem update_queue_record_workers (s : CoordState) (tid : String)
    (c : RecordChanges) : (update_queue_record s tid c).workers = s.workers := by
  unfold update_queue_record
  split <;> rfl

theorem update_queue_record_pending (s : CoordState) (tid : String)
    (c : RecordChanges) : (update_queue_record s tid c).pending = s.pending := by
  unfold update_queue_record
  split <;> rfl

theorem update_queue_record_rows (s : CoordState) (tid : String)
    (c : RecordChanges) : (update_queue_record s tid c).rows = s.rows := by
  unfold update_queue_record
  split <;> rfl

theorem find_map_records (records : List CoordRecord) (tid : String)
    (g : CoordRecord → CoordRecord) (hg : ∀ r, (g r).task_id = r.task_id) :
    ((records.map (fun r => if r.task_id = tid then g r else r)).find?
        (fun r => r.task_id = tid)).isSome
      = (records.find? (fun r => r.task_id = tid)).isSome := by
  by_cases h : ∃ r ∈ records, r.task_id = tid
  · obtain ⟨r, hr, hrt⟩ := h
    have h1 : ((records.map (fun r => if r.task_id = tid then g r else r)).find?
        (fun r => r.task_id = tid)).isSome := by
      rw [List.find?_isSome]
      refine ⟨if r.task_id = tid then g r else r, List.mem_map_of_mem _ hr, ?_⟩
      rw [if_pos hrt]
      simp [hg, hrt]
    have h2 : ((records.find? (fun r => r.task_id = tid))).isSome := by
      rw [List.find?_isSome]
      exact ⟨r, hr, by simp [hrt]⟩
    rw [h1, h2]
  · have h1 : ¬ ((records.map (fun r => if r.task_id = tid then g r else r)).find?
        (fun r => r.task_id = tid)).isSome := by
      rw [List.find?_isSome]
      rintro ⟨x, hx, hxt⟩
      obtain ⟨r, hr, rfl⟩ := List.mem_map.mp hx
      apply h
      refine ⟨r, hr, ?_⟩
      by_cases hrt : r.task_id = tid
      · exact hrt
      · rw [if_neg hrt] at hxt
        simpa using hxt
    have h2 : ¬ ((records.find? (fun r => r.task_id = tid))).isSome := by
      rw [List.find?_isSome]
      rintro ⟨r, hr, hrt⟩
      exact h ⟨r, hr, by simpa using hrt⟩
    simp only [Bool.not_eq_true] at h1 h2
    rw [h1, h2]

theorem update_queue_record_idem (s : CoordState) (tid : String)
    (c : RecordChanges)
    (hc : ∀ r, applyRecordChanges (applyRecordChanges r c) c
      = applyRecordChanges r c) :
    update_queue_record (update_queue_record s tid c) tid c
      = update_queue_record s tid c := by
  unfold update_queue_record
  by_cases h : ((s.records.find? (fun r => r.task_id = tid))).isSome
  · rw [if_pos h]
    have hpres := find_map_records s.records tid (fun r => applyRecordChanges r c)
      (fun r => applyRecordChanges_task_id r c)
    rw [if_pos (by simp only [hpres]; exact h)]

    have : ((s.records.map (fun r => if r.task_id = tid
        then applyRecordChanges r c else r)).map
        (fun r => if r.task_id = tid then applyRecordChanges r c else r))
        = s.records.map (fun r => if r.task_id = tid
          then applyRecordChanges r c else r) := by
      rw [List.map_map]
      apply List.map_congr_left
      intro r _
      by_cases hrt : r.task_id = tid
      · simp only [Function.comp, if_pos hrt]
        rw [if_pos (by rw [applyRecordChanges_task_id]; exact hrt), hc]
      · simp [Function.comp, if_neg hrt]
    rw [this]
  · rw [if_neg h, if_neg h]

theorem alookup_none_iff {β : Type} (m : List (String × β)) (k : String) :
    alookup m k = none ↔ k ∉ m.map Prod.fst := by
  induction m with
  | nil => simp [alookup]
  | cons p rest ih =>
    obtain ⟨k1, v⟩ := p
    by_cases h : k1 = k
    · subst h
      simp [alookup]
    · simp [alookup, h, ih, Ne.symm h]

theorem mem_keys_exists_alookup {β : Type} (m : List (String × β)) (k : String)
    (h : k ∈ m.map Prod.fst) : ∃ v, alookup m k = some v := by
  cases hv : alookup m k with
  | none => exact absurd h ((alookup_none_iff m k).mp hv)
  | some v => exact ⟨v, rfl⟩

theorem alookup_map_set {β : Type} (m : List (String × β)) (k : String)
    (v : β) :
    alookup (m.map (fun p => if p.1 = k then (k, v) else p)) k
      = if (alookup m k).isSome then some v else none := by
  induction m with
  | nil => simp [alookup]
  | cons p rest ih =>
    obtain ⟨k1, v1⟩ := p
    simp only [List.map_cons]
    by_cases h : k1 = k
    · subst h
      have hhead : (if ((k1, v1) : String × β).1 = k1 then ((k1 : String), v)
          else (k1, v1)) = (k1, v) := by simp
      rw [hhead]
      simp [alookup, ih]
    · have hhead : (if ((k1, v1) : String × β).1 = k then ((k : String), v)
          else (k1, v1)) = (k1, v1) := by simp [h]
      rw [hhead]
      simp [alookup, h, ih]

theorem alookup_aset_self {β : Type} (m : List (String × β)) (k : String)
    (v : β) : alookup (aset m k v) k = some v := by
  unfold aset
  by_cases hsome : (alookup m k).isSome
  · rw [if_pos hsome, alookup_map_set, if_pos hsome]
  · rw [if_neg hsome]
    induction m with
    | nil => simp [alookup]
    | cons p rest ih =>
      obtain ⟨k1, v1⟩ := p
      simp only [alookup] at hsome
      by_cases h : k1 = k
      · rw [if_pos h] at hsome
        simp at hsome
      · rw [if_neg h] at hsome
        simp only [List.cons_append, alookup]
        rw [if_neg h]
        exact ih hsome

theorem alookup_aremove_self {β : Type} (m : List (String × β)) (k : String) :
    alookup (aremove m k) k = none := by
  induction m with
  | nil => rfl
  | cons p rest ih =>
    obtain ⟨k1, v⟩ := p
    unfold aremove
    by_cases h : k1 = k
    · rw [if_pos h]
      exact ih
    · rw [if_neg h]
      simp only [alookup]
      rw [if_neg h]
      exact ih

theorem alookup_aremove_ne {β : Type} (m : List (String × β)) (k k2 : String)
    (h : k2 ≠ k) : alookup (aremove m k) k2 = alookup m k2 := by
  induction m with
  | nil => rfl
  | cons p rest ih =>
    obtain ⟨k1, v⟩ := p
    unfold aremove
    by_cases h1 : k1 = k
    · rw [if_pos h1]
      simp only [alookup]
      rw [if_neg (fun habs => h (by rw [← habs, h1]))]
      exact ih
    · rw [if_neg h1]
      simp only [alookup]
      by_cases h2 : k1 = k2
      · rw [if_pos h2, if_pos h2]
      · rw [if_neg h2, if_neg h2]
        exact ih

theorem keys_aset_nodup {β : Type} (m : List (String × β)) (k : String)
    (v : β) (h : (m.map Prod.fst).Nodup) :
    ((aset m k v).map Prod.fst).Nodup := by
  unfold aset
  by_cases hsome : (alookup m k).isSome
  · rw [if_pos hsome]
    have hkeys : (m.map (fun p => if p.1 = k then (k, v) else p)).map Prod.fst
        = m.map Prod.fst := by
      rw [List.map_map]
      apply List.map_congr_left
      intro p _
      by_cases hp : p.1 = k
      · simp [Function.comp, hp]
      · simp [Function.comp, hp]
    rw [hkeys]
    exact h
  · rw [if_neg hsome]
    have hnone : alookup m k = none := by
      cases halt : alookup m k with
      | none => rfl
      | some w => rw [halt] at hsome; simp at hsome
    have hk : k ∉ m.map Prod.fst := (alookup_none_iff m k).mp hnone
    simp only [List.map_append, List.map_cons, List.map_nil]
    rw [List.nodup_append]
    refine ⟨h, List.nodup_singleton k, ?_⟩
    intro a ha hb
    simp only [List.mem_singleton] at hb
    subst hb
    exact hk ha

theorem countAlive_cons (p : String × WorkerHandle)
    (rest : List (String × WorkerHandle)) :
    countAlive (p :: rest)
      = (if p.2.alive then 1 else 0) + countAlive rest := by
  unfold countAlive
  rw [List.filter_cons]
  split
  · simp [Nat.add_comm]
  · simp

theorem countAlive_eq_zero_of_all_dead (m : List (String × WorkerHandle))
    (hdead : ∀ p ∈ m, p.2.alive = false) : countAlive m = 0 := by
  unfold countAlive
  rw [List.length_eq_zero, List.filter_eq_nil_iff]
  intro p hp
  simp [hdead p hp]

theorem all_dead_of_not_running (s : CoordState)
    (h : has_running_workers s = false) :
    ∀ p ∈ s.workers, p.2.alive = false := by
  unfold has_running_workers at h
  rw [List.any_eq_false] at h
  intro p hp
  simpa using h p hp

theorem countAlive_map_const_of_all_dead (m : List (String × WorkerHandle))
    (tid : String) (w : WorkerHandle)
    (hdead : ∀ p ∈ m, p.2.alive = false)
    (hnd : (m.map Prod.fst).Nodup) :
    countAlive (m.map (fun p => if p.1 = tid then (tid, w) else p)) ≤ 1 := by
  unfold countAlive
  induction m with
  | nil => simp
  | cons p rest ih =>
    simp only [List.map_cons] at hnd ⊢
    have hnd2 := List.nodup_cons.mp hnd
    by_cases h : p.1 = tid
    · rw [if_pos h]
      have hrest : rest.map (fun p => if p.1 = tid then (tid, w) else p)
          = rest := by
        conv_rhs => rw [← List.map_id rest]
        apply List.map_congr_left
        intro q hq
        have hne : q.1 ≠ tid := by
          intro habs
          apply hnd2.1
          rw [← h] at habs
          rw [← habs]
          exact List.mem_map_of_mem Prod.fst hq
        simp [hne]
      rw [hrest, List.filter_cons]
      have hrest0 : (rest.filter (fun p => p.2.alive)).length = 0 := by
        rw [List.length_eq_zero, List.filter_eq_nil_iff]
        intro q hq
        simp [hdead q (List.mem_cons_of_mem _ hq)]
      split <;> simp [hrest0]
    · rw [if_neg h, List.filter_cons]
      have hpdead : p.2.alive = false := hdead p (List.mem_cons_self _ _)
      rw [hpdead]
      simp only [Bool.false_eq_true, not_false_iff, if_neg]
      exact ih (fun q hq => hdead q (List.mem_cons_of_mem _ hq)) hnd2.2

theorem countAlive_aset_of_all_dead (m : List (String × WorkerHandle))
    (tid : String) (w : WorkerHandle)
    (hdead : ∀ p ∈ m, p.2.alive = false)
    (hnd : (m.map Prod.fst).Nodup) :
    countAlive (aset m tid w) ≤ 1 := by
  unfold aset
  split
  · exact countAlive_map_const_of_all_dead m tid w hdead hnd
  · unfold countAlive
    rw [List.filter_append, List.length_append]
    have h1 : countAlive m = 0 := countAlive_eq_zero_of_all_dead m hdead
    unfold countAlive at h1
    rw [h1]
    simp only [Nat.zero_add, List.filter_cons, List.filter_nil]
    split <;> simp

theorem countAlive_map_flagset (m : List (String × WorkerHandle))
    (tid : String) :
    countAlive (m.map (fun p =>
      if p.1 = tid then (p.1, { p.2 with cancelRequested := true }) else p))
      = countAlive m := by
  induction m with
  | nil => rfl
  | cons p rest ih =>
    simp only [List.map_cons]
    rw [countAlive_cons, countAlive_cons, ih]
    by_cases h : p.1 = tid
    · rw [if_pos h]
    · rw [if_neg h]

theorem countAlive_map_finish (m : List (String × WorkerHandle))
    (tid : String) :
    countAlive (m.map (fun p =>
      if p.1 = tid then (p.1, { p.2 with alive := false }) else p))
      ≤ countAlive m := by
  induction m with
  | nil => simp [countAlive]
  | cons p rest ih =>
    simp only [List.map_cons]
    rw [countAlive_cons, countAlive_cons]
    by_cases h : p.1 = tid
    · rw [if_pos h]
      simp only [show ((p.1, { p.2 with alive := false })
        : String × WorkerHandle).2.alive = false from rfl]
      simp only [Bool.false_eq_true, if_false, Nat.zero_add]
      exact le_trans ih (Nat.le_add_left _ _)
    · rw [if_neg h]
      exact Nat.add_le_add_left ih _

theorem countAlive_filter_alive (m : List (String × WorkerHandle)) :
    countAlive (m.filter (fun p => p.2.alive)) ≤ countAlive m := by
  unfold countAlive
  exact ((List.filter_sublist m).filter _).length_le

theorem cancel_task_eq_of_none (s : CoordState) (tid : String)
    (hw : alookup s.workers tid = none) : cancel_task tid s = s := by
  unfold cancel_task
  rw [hw]

theorem cancel_task_eq_of_some (s : CoordState) (tid : String)
    (w : WorkerHandle) (hw : alookup s.workers tid = some w) :
    cancel_task tid s = update_queue_record
      { s with
        workers := s.workers.map (fun p =>
          if p.1 = tid then (p.1, { p.2 with cancelRequested := true }) else p)
        rows := match alookup s.rows tid with
          | some row => s.rows.map (fun p =>
              if p.1 = tid then (p.1, { row with cancelEnabled := false }) else p)
          | none => s.rows }
      tid { status := some "cancelled", path := some none, error := some none } := by
  unfold cancel_task
  rw [hw]

theorem keys_map_presfst {β : Type} (m : List (String × β))
    (g : String × β → String × β) (hg : ∀ p, (g p).1 = p.1) :
    ((m.map g).map Prod.fst) = m.map Prod.fst := by
  rw [List.map_map]
  apply List.map_congr_left
  intro p _
  exact hg p

theorem remove_history_entry_workers (tid : String) (s : CoordState) :
    (remove_history_entry tid s).workers = s.workers := by
  unfold remove_history_entry
  split
  · rfl
  · split
    · rfl
    · split
      · rfl
      · unfold remove_queue_record
        rfl

theorem dispatchEvent_workers (s : CoordState) (ev : EventDict) :
    (dispatchEvent s ev).workers = s.workers := by
  unfold dispatchEvent
  dsimp only
  split
  · rfl
  · repeat' split
    all_goals first
      | rfl
      | rw [update_queue_record_workers]

theorem workersInv_dispatch (s : CoordState) (ev : EventDict)
    (h : WorkersInv s) : WorkersInv (dispatchEvent s ev) := by
  unfold WorkersInv
  rw [dispatchEvent_workers]
  exact h

theorem workersInv_remove (tid : String) (s : CoordState)
    (h : WorkersInv s) : WorkersInv (remove_history_entry tid s) := by
  unfold WorkersInv
  rw [remove_history_entry_workers]
  exact h

theorem workersInv_cancel (tid : String) (s : CoordState)
    (h : WorkersInv s) : WorkersInv (cancel_task tid s) := by
  cases hw : alookup s.workers tid with
  | none =>
    rw [cancel_task_eq_of_none s tid hw]
    exact h
  | some w =>
    rw [cancel_task_eq_of_some s tid w hw]
    unfold WorkersInv
    rw [update_queue_record_workers]
    constructor
    · rw [keys_map_presfst s.workers
        (fun p => if p.1 = tid then (p.1, { p.2 with cancelRequested := true })
          else p)
        (fun p => by
          dsimp only
          by_cases hc : p.1 = tid
          · rw [if_pos hc]
          · rw [if_neg hc])]
      exact h.1
    · show countAlive (s.workers.map (fun p =>
        if p.1 = tid then (p.1, { p.2 with cancelRequested := true }) else p)) ≤ 1
      rw [countAlive_map_flagset]
      exact h.2

theorem workersInv_finish (tid : String) (s : CoordState)
    (h : WorkersInv s) : WorkersInv (finish_worker tid s) := by
  unfold WorkersInv finish_worker
  constructor
  · rw [keys_map_presfst s.workers
      (fun p => if p.1 = tid then (p.1, { p.2 with alive := false }) else p)
      (fun p => by
        dsimp only
        by_cases hc : p.1 = tid
        · rw [if_pos hc]
        · rw [if_neg hc])]
    exact h.1
  · exact le_trans (countAlive_map_finish s.workers tid) h.2

theorem workersInv_reap (s : CoordState) (h : WorkersInv s) :
    WorkersInv (reap_finished_workers s) := by
  unfold WorkersInv reap_finished_workers
  constructor
  · exact h.1.sublist ((List.filter_sublist s.workers).map Prod.fst)
  · exact le_trans (countAlive_filter_alive s.workers) h.2

theorem workersInv_activate (tid : String) (s : CoordState)
    (hrun : has_running_workers s = false) (h : WorkersInv s) :
    WorkersInv (activate_pending_worker tid s) := by
  unfold activate_pending_worker
  split
  · exact h
  · dsimp only
    split
    · unfold remove_queue_record
      exact h
    · unfold WorkersInv
      dsimp only
      rw [update_queue_record_workers]
      constructor
      · exact keys_aset_nodup _ tid _ h.1
      · exact countAlive_aset_of_all_dead _ tid _
          (all_dead_of_not_running s hrun) h.1

theorem workersInv_maybe_start (s : CoordState) (h : WorkersInv s) :
    WorkersInv (maybe_start_next_waiting_task s) := by
  unfold maybe_start_next_waiting_task
  by_cases hrun : has_running_workers s = true
  · rw [if_pos hrun]
    exact h
  · rw [if_neg hrun]
    have hrunf : has_running_workers s = false := by
      cases hx : has_running_workers s
      · rfl
      · exact absurd hx hrun
    split
    · exact h
    · split
      · exact h
      · exact workersInv_activate _ s hrunf h

theorem workersInv_poll (s : CoordState) (h : WorkersInv s) :
    WorkersInv (poll_tick_sequential s) :=
  workersInv_maybe_start _ (workersInv_reap s h)

theorem workersInv_start_worker (tid title url : String) (createdAt : ℚ)
    (s : CoordState) (h : WorkersInv s) :
    WorkersInv (start_worker tid title url createdAt true s) := by
  unfold start_worker
  dsimp only
  split
  · next hw =>
    apply workersInv_maybe_start
    exact h
  · next hw =>
    have hrun : has_running_workers s = false := by
      by_contra hx
      rw [Bool.not_eq_false] at hx
      exact hw ⟨rfl, Or.inl hx⟩
    unfold WorkersInv
    constructor
    · exact keys_aset_nodup _ tid _ h.1
    · exact countAlive_aset_of_all_dead _ tid _
        (all_dead_of_not_running s hrun) h.1

theorem workersInv_reachable (s : CoordState) (h : ReachableSeq s) :
    WorkersInv s := by
  unfold ReachableSeq at h
  induction h with
  | refl => exact ⟨by simp [initState], by simp [initState, countAlive]⟩
  | tail hab hbc ih =>
    cases hbc <;> first
      | exact workersInv_start_worker _ _ _ _ _ ih
      | exact workersInv_dispatch _ _ ih
      | exact workersInv_cancel _ _ ih
      | exact workersInv_remove _ _ ih
      | exact workersInv_finish _ _ ih
      | exact workersInv_poll _ ih

theorem activate_effects (s : CoordState) (tid : String) (w : WorkerHandle)
    (row : TaskRowState) (hp : alookup s.pending tid = some w)
    (hr : alookup s.rows tid = some row) :
    alookup (activate_pending_worker tid s).pending tid = none ∧
    alookup (activate_pending_worker tid s).workers tid
      = some { w with alive := true } ∧
    alookup (activate_pending_worker tid s).rows tid
      = some (rowUpdateStatus row "downloading") ∧
    (∀ tid2, tid2 ≠ tid →
      alookup (activate_pending_worker tid s).pending tid2
        = alookup s.pending tid2 ∧
      alookup (activate_pending_worker tid s).rows tid2
        = alookup s.rows tid2) := by
  unfold activate_pending_worker
  rw [hp]
  dsimp only
  rw [hr]
  dsimp only
  refine ⟨?_, ?_, ?_, ?_⟩
  · rw [update_queue_record_pending]
    exact alookup_aremove_self s.pending tid
  · exact alookup_aset_self _ tid _
  · rw [update_queue_record_rows]
    have hm := alookup_map_key s.rows tid tid
      (fun _ => rowUpdateStatus row "downloading")
    rw [if_pos rfl, hr] at hm
    exact hm
  · intro tid2 h2
    constructor
    · rw [update_queue_record_pending]
      exact alookup_aremove_ne s.pending tid tid2 h2
    · rw [update_queue_record_rows]
      have hm := alookup_map_key s.rows tid tid2
        (fun _ => rowUpdateStatus row "downloading")
      rw [if_neg h2] at hm
      exact hm

/-- A worker-monad computation that only appends non-`finished` events. -/
def NonFinishedEmitter {α : Type} (m : WM α) : Prop :=
  ∀ st, ∃ new, ((m st).2).events = st.events ++ new ∧
    ∀ ev ∈ new, isFinishedEvent ev = false

theorem isFinishedEvent_mkEvent (tid ty : String)
    (payload : List (String × EVal)) :
    isFinishedEvent (mkEvent tid ty payload) = decide (ty = "finished") := by
  unfold isFinishedEvent mkEvent
  simp only [alookup]
  simp

theorem nfe_pure {α : Type} (a : α) :
    NonFinishedEmitter (pure a : WM α) := by
  intro st
  exact ⟨[], by simp [pure, wmPure], by simp⟩

theorem nfe_bind {α β : Type} (x : WM α) (f : α → WM β)
    (hx : NonFinishedEmitter x) (hf : ∀ a, NonFinishedEmitter (f a)) :
    NonFinishedEmitter (x >>= f) := by
  intro st
  obtain ⟨n1, h1, h1f⟩ := hx st
  show ∃ new, ((wmBind x f st).2).events = st.events ++ new ∧ _
  unfold wmBind
  cases hx0 : x st with
  | mk res st1 =>
    rw [hx0] at h1
    cases res with
    | ok a =>
      obtain ⟨n2, h2, h2f⟩ := hf a st1
      refine ⟨n1 ++ n2, ?_, ?_⟩
      · dsimp only
        rw [h2, h1, List.append_assoc]
      · intro ev hev
        rcases List.mem_append.mp hev with h | h
        · exact h1f ev h
        · exact h2f ev h
    | error e =>
      exact ⟨n1, h1, h1f⟩

theorem nfe_emit (taskId ty : String) (payload : List (String × EVal))
    (hty : ty ≠ "finished") :
    NonFinishedEmitter (wmEmit taskId ty payload) := by
  intro st
  refine ⟨[mkEvent taskId ty payload], rfl, ?_⟩
  intro ev hev
  simp only [List.mem_singleton] at hev
  subst hev
  rw [isFinishedEvent_mkEvent]
  simp [hty]

theorem nfe_throw {α : Type} (e : RunExc) :
    NonFinishedEmitter (wmThrow e : WM α) := by
  intro st
  exact ⟨[], by simp [wmThrow], by simp⟩

theorem nfe_obsCancel (o : Option ℕ) :
    NonFinishedEmitter (obsCancel o) := by
  intro st
  exact ⟨[], by simp [obsCancel], by simp⟩

theorem nfe_nextProc (env : WorkerEnv) :
    NonFinishedEmitter (nextProc env) := by
  intro st
  exact ⟨[], by simp [nextProc], by simp⟩

theorem nfe_ite {α : Type} (c : Prop) [Decidable c] (m1 m2 : WM α)
    (h1 : NonFinishedEmitter m1) (h2 : NonFinishedEmitter m2) :
    NonFinishedEmitter (if c then m1 else m2) := by
  by_cases hc : c
  · rwa [if_pos hc]
  · rwa [if_neg hc]

theorem nfe_check (env : WorkerEnv) :
    NonFinishedEmitter (check_cancelled env) := by
  unfold check_cancelled
  apply nfe_bind _ _ (nfe_obsCancel _)
  intro b
  exact nfe_ite _ _ _ (nfe_throw _) (nfe_pure _)

theorem nfe_runProc (env : WorkerEnv) (capture : Bool) :
    NonFinishedEmitter (wmRunProc env capture) := by
  unfold wmRunProc
  apply nfe_bind _ _ (nfe_check env)
  intro _
  apply nfe_bind _ _ (nfe_nextProc env)
  intro res
  apply nfe_bind _ _ (nfe_obsCancel _)
  intro b
  apply nfe_ite _ _ _ (nfe_throw _)
  apply nfe_ite
  · apply nfe_bind _ _ (nfe_obsCancel _)
    intro b2
    exact nfe_ite _ _ _ (nfe_throw _) (nfe_throw _)
  · exact nfe_pure _

theorem nfe_log (w : WorkerParams) (key : String) :
    NonFinishedEmitter (wmLog w key) :=
  nfe_emit _ _ _ (by decide)

theorem nfe_status (w : WorkerParams) (st : String) :
    NonFinishedEmitter (wmStatus w st) :=
  nfe_emit _ _ _ (by decide)

theorem nfe_progress_hook (w : WorkerParams) (d : HookDict) :
    NonFinishedEmitter (progress_hook w d) := by
  unfold progress_hook
  apply nfe_ite
  · exact nfe_emit _ _ _ (by decide)
  · exact nfe_ite _ _ _ (nfe_emit _ _ _ (by decide)) (nfe_pure _)

theorem nfe_forM (l : List HookDict) (f : HookDict → WM PUnit)
    (hf : ∀ d, NonFinishedEmitter (f d)) :
    NonFinishedEmitter (l.forM f) := by
  induction l with
  | nil =>
    show NonFinishedEmitter (pure PUnit.unit : WM PUnit)
    exact nfe_pure _
  | cons d rest ih =>
    show NonFinishedEmitter (f d >>= fun _ => rest.forM f)
    exact nfe_bind _ _ (hf d) (fun _ => ih)

theorem nfe_ensure_metadata (w : WorkerParams) (env : WorkerEnv) :
    NonFinishedEmitter (ensure_metadata w env) := by
  unfold ensure_metadata
  split
  · exact nfe_pure _
  · split
    · exact nfe_ite _ _ _ (nfe_pure _) (nfe_throw _)
    · exact nfe_throw _

set_option maxHeartbeats 1000000 in
theorem nfe_body (w : WorkerParams) (env : WorkerEnv) :
    NonFinishedEmitter (worker_run_body w env) := by
  unfold worker_run_body
  dsimp only
  refine nfe_bind _ _ (nfe_ite _ _ _ (nfe_throw _) (nfe_pure _)) fun a1 => ?_
  refine nfe_bind _ _ ?_ fun a2 => ?_
  · cases w.end_seconds with
    | some e => exact nfe_ite _ _ _ (nfe_throw _) (nfe_pure _)
    | none => exact nfe_pure _
  refine nfe_bind _ _ (nfe_ite _ _ _ (nfe_throw _) (nfe_pure _)) fun a3 => ?_
  refine nfe_bind _ _ (nfe_ite _ _ _ (nfe_throw _) (nfe_pure _)) fun a4 => ?_
  refine nfe_bind _ _ (nfe_log _ _) fun a5 => ?_
  refine nfe_bind _ _ (nfe_check _) fun a6 => ?_
  refine nfe_bind _ _ (nfe_log _ _) fun a7 => ?_
  refine nfe_bind _ _ (nfe_status _ _) fun a8 => ?_
  refine nfe_bind _ _ (nfe_check _) fun a9 => ?_
  refine nfe_bind _ _ (nfe_ensure_metadata _ _) fun meta => ?_
  refine nfe_bind _ _ (nfe_log _ _) fun a10 => ?_
  refine nfe_bind _ _ (nfe_emit _ _ _ (by decide)) fun a11 => ?_
  refine nfe_bind _ _ (nfe_check _) fun a12 => ?_
  refine nfe_bind _ _ (nfe_ite _ _ _ (nfe_log _ _) (nfe_pure _)) fun a13 => ?_
  refine nfe_bind _ _ (nfe_log _ _) fun a14 => ?_
  refine nfe_bind _ _ (nfe_forM _ _ fun d => nfe_progress_hook w d) fun a15 => ?_
  refine nfe_bind _ _ ?_ fun src => ?_
  · cases env.download with
    | ok s => exact nfe_pure _
    | error m => exact nfe_throw _
  refine nfe_bind _ _ (nfe_ite _ _ _ (nfe_throw _) (nfe_pure _)) fun a16 => ?_
  refine nfe_bind _ _ (nfe_check _) fun a17 => ?_
  refine nfe_bind _ _ (nfe_runProc _ _) fun out1 => ?_
  refine nfe_bind _ _ (nfe_runProc _ _) fun out2 => ?_
  refine nfe_bind _ _ (nfe_log _ _) fun a18 => ?_
  refine nfe_bind _ _ ?_ fun fd => ?_
  · refine nfe_ite _ _ _ ?_ ?_
    · refine nfe_bind _ _ (nfe_log _ _) fun b1 => ?_
      refine nfe_bind _ _ (nfe_check _) fun b2 => ?_
      exact nfe_pure _
    · refine nfe_bind _ _ (nfe_status _ _) fun b3 => ?_
      refine nfe_bind _ _ ?_ fun b4 => ?_
      · refine nfe_ite _ _ _ ?_ (nfe_log _ _)
        refine nfe_bind _ _ (nfe_runProc _ _) fun durOut => ?_
        refine nfe_bind _ _ (nfe_log _ _) fun b5 => ?_
        exact nfe_log _ _
      refine nfe_bind _ _ (nfe_runProc _ _) fun b6 => ?_
      exact nfe_pure _
  cases fd with
  | none => exact nfe_throw _
  | some f =>
    refine nfe_bind _ _ (nfe_check _) fun c1 => ?_
    refine nfe_bind _ _ (nfe_check _) fun c2 => ?_
    refine nfe_bind _ _ (nfe_status _ _) fun c3 => ?_
    refine nfe_bind _ _ (nfe_emit _ _ _ (by decide)) fun c4 => ?_
    refine nfe_bind _ _ (nfe_log _ _) fun c5 => ?_
    exact nfe_pure _

/-- A list of events none of which is `finished` filters to nothing. -/
theorem filter_isFinished_nil (l : List EventDict)
    (h : ∀ ev ∈ l, isFinishedEvent ev = false) :
    l.filter isFinishedEvent = [] := by
  induction l with
  | nil => rfl
  | cons a t ih =>
    have ha := h a (List.mem_cons_self a t)
    have ht := ih fun ev hev => h ev (List.mem_cons_of_mem a hev)
    simp [List.filter_cons, ha, ht]

/-- C6: every run of a worker — success, failure or cancellation — emits
exactly one `finished` event, as the last event of the run, carrying the
boolean `cancelled` flag of the outcome and an `error` field that is the
failure message string when the run failed and `None` otherwise. -/
theorem worker_run_finished_event (w : WorkerParams) (env : WorkerEnv) :
    ((worker_run w env).2).getLast? =
      some (mkEvent w.task_id "finished"
        [("cancelled", EVal.b (outcomeCancelledFlag (worker_run w env).1)),
          ("error", match outcomeError (worker_run w env).1 with
            | some m => EVal.s m
            | none => EVal.none)]) ∧
    (((worker_run w env).2).filter isFinishedEvent).length = 1 := by
  obtain ⟨new, hnew, hne⟩ :=
    nfe_body w env { obs := 0, procIdx := 0, events := [] }
  rcases hb : worker_run_body w env { obs := 0, procIdx := 0, events := [] }
    with ⟨res, st⟩
  rw [hb] at hnew
  simp only [List.nil_append] at hnew
  have hstf : ∀ ev ∈ st.events, isFinishedEvent ev = false := by
    intro ev hev
    exact hne ev (hnew ▸ hev)
  unfold worker_run
  rw [hb]
  cases res with
  | ok u =>
    dsimp only
    refine ⟨?_, ?_⟩
    · simp [List.getLast?_concat, outcomeCancelledFlag, outcomeError]
    · rw [List.filter_append, filter_isFinished_nil st.events hstf]
      simp [isFinishedEvent_mkEvent]
  | error e =>
    cases e with
    | cancelled =>
      dsimp only
      refine ⟨?_, ?_⟩
      · simp [List.getLast?_concat, outcomeCancelledFlag, outcomeError]
      · rw [List.filter_append, List.filter_append,
          filter_isFinished_nil st.events hstf]
        simp [isFinishedEvent_mkEvent]
    | failure msg =>
      dsimp only
      refine ⟨?_, ?_⟩
      · simp [List.getLast?_concat, outcomeCancelledFlag, outcomeError]
      · rw [List.filter_append, List.filter_append,
          filter_isFinished_nil st.events hstf]
        simp [isFinishedEvent_mkEvent]

/-! ## Claim theorems for the pure utilities -/

/-- C1 counterexample: a persisted record stored as `downloading` reloads as
`cancelled`, not as `error`, and a record stored as `waiting` reloads as
`waiting`, not as `cancelled`, contradicting the claimed coercions. -/
theorem load_queue_state_counterexample :
    (loadQueueItems "2024-06-01T00:00:00"
      [{ task_id := some (.str "t1"), title := some (.str "A"),
         status := some (.str "downloading"),
         created_at := some (.str "2024-01-01T00:00:00") },
       { task_id := some (.str "t2"), title := some (.str "B"),
         status := some (.str "waiting"),
         created_at := some (.str "2024-01-01T00:00:01") }]).map QueueEntry.status
      = ["cancelled", "waiting"] ∧
    (["cancelled", "waiting"] : List String) ≠ ["error", "cancelled"] := by
  decide

/-- C1 (amended): saving and reloading the queue record set preserves every
record except for the status reconciliation the code performs: `downloading`
and `converting` are coerced to `cancelled`, the statuses `waiting`, `done`,
`error` and `cancelled` are returned unchanged, and unrecognised statuses
become `done`. -/
theorem load_queue_state_roundtrip (nowIso : String) (es : List QueueEntry)
    (hwf : ∀ e ∈ es, EntryWF e) (hnd : (es.map QueueEntry.task_id).Nodup) :
    loadQueueItems nowIso (es.map entryToRaw)
      = es.map (fun e => { e with status := specLoadStatus e.status }) := by
  unfold loadQueueItems
  exact loadItemsAux_entryToRaw nowIso es [] hwf hnd (by simp)

/-- Witness for the amended C1 at a concrete two-record queue file. -/
theorem load_queue_state_roundtrip_witness :
    loadQueueItems "2024-06-01T00:00:00"
      ([⟨"t1", "A", "downloading", none, none, "2024-01-01", none⟩,
        ⟨"t2", "B", "waiting", none, none, "2024-01-01", none⟩].map entryToRaw)
      = [⟨"t1", "A", "cancelled", none, none, "2024-01-01", none⟩,
         ⟨"t2", "B", "waiting", none, none, "2024-01-01", none⟩] := by
  have h := load_queue_state_roundtrip "2024-06-01T00:00:00"
    [⟨"t1", "A", "downloading", none, none, "2024-01-01", none⟩,
     ⟨"t2", "B", "waiting", none, none, "2024-01-01", none⟩]
    (by
      intro e he
      simp only [List.mem_cons, List.not_mem_nil, or_false] at he
      rcases he with rfl | rfl <;>
        exact ⟨by decide, by decide, by decide, by decide, by simp, by simp,
          by simp⟩)
    (by decide)
  exact h.trans (by decide)

/-- C10: for every input, `sanitize_filename` returns a non-empty character
list with no character from the invalid set nor any code point below 32, not
ending in a dot or a space, and equal to `"video"` whenever the cleaned and
stripped input is empty. -/
theorem sanitize_filename_props (title : List Char) :
    sanitizeFilenameList title ≠ [] ∧
    (∀ c ∈ sanitizeFilenameList title, c ∉ invalidFilenameChars ∧ 32 ≤ c.toNat) ∧
    (∀ c, (sanitizeFilenameList title).getLast? = some c → c ≠ '.' ∧ c ≠ ' ') ∧
    (pyRstripList (pyStripList (title.map sanitizeChar)) ['.', ' '] = [] →
      sanitizeFilenameList title = "video".toList) := by
  unfold sanitizeFilenameList
  by_cases hemp :
      (pyRstripList (pyStripList (title.map sanitizeChar)) ['.', ' ']).isEmpty
  · rw [if_pos hemp]
    refine ⟨by decide, by decide, by decide, fun _ => rfl⟩
  · rw [if_neg hemp]
    rw [Bool.not_eq_true, List.isEmpty_eq_false_iff_exists_mem] at hemp
    obtain ⟨x, hx⟩ := hemp
    refine ⟨List.ne_nil_of_mem hx, ?_, ?_, ?_⟩
    · intro c hc
      have hc1 := mem_pyStripList (mem_pyRstripList hc)
      obtain ⟨a, _, rfl⟩ := List.mem_map.mp hc1
      exact sanitizeChar_safe a
    · intro c hc
      have := getLast_pyRstripList_not_mem hc
      simp only [List.mem_cons, List.mem_singleton, not_or] at this
      exact ⟨this.1, this.2.1⟩
    · intro habs
      rw [habs] at hx
      exact absurd hx (List.not_mem_nil x)

/-- Witness for C10 at the concrete title `"a<b. "`. -/
theorem sanitize_filename_props_witness :
    'a' ∉ invalidFilenameChars ∧ 32 ≤ 'a'.toNat :=
  (sanitize_filename_props ("a<b. ".toList)).2.1 'a' (by decide)

/-- C9: time parsing sums up to three colon-separated components as
hours:minutes:seconds, so `"01:02"` parses to 62 seconds, `"1:02:03"` to 3723
seconds, and the four-component `"1:2:3:4"` raises the time-format error. -/
theorem parse_time_input_examples :
    parse_time_input "01:02" = Except.ok (some 62) ∧
    parse_time_input "1:02:03" = Except.ok (some 3723) ∧
    parse_time_input "1:2:3:4" = Except.error timeFormatError := by
  refine ⟨?_, ?_, ?_⟩
  · simp [parse_time_input, pyStripList, splitOnChar, parseTimeStep,
      pyFloatCore, digitsToNat, pyWhitespace]
    norm_num
  · simp [parse_time_input, pyStripList, splitOnChar, parseTimeStep,
      pyFloatCore, digitsToNat, pyWhitespace]
    norm_num
  · simp [parse_time_input, pyStripList, splitOnChar, parseTimeStep,
      pyFloatCore, digitsToNat, pyWhitespace]

/-- C7: the embedded `_compute_vbit` arithmetic agrees with the bitrate
formula stated by the specification (max of 800 kbit and the total estimate
minus 320 kbit, a 1.15 headroom factor, rounded up to the next whole megabit,
floored at 4 Mbit), and evaluates to `"15M"` on a 100 MB file of 60
seconds. -/
theorem compute_vbit_correct :
    (∀ (fileSize : ℕ) (durOutput : String),
      compute_vbit fileSize durOutput
        = computeVbitClaim fileSize ((pyFloat durOutput).getD 1)) ∧
    compute_vbit 100000000 "60" = "15M" := by
  constructor
  · intro fileSize durOutput
    unfold compute_vbit computeVbitArith computeVbitClaim durValueOf
    have hdv : (match pyFloat durOutput with
        | some v => max v 1
        | none => (1 : ℚ)) = max ((pyFloat durOutput).getD 1) 1 := by
      cases pyFloat durOutput with
      | none => simp
      | some v => simp
    rw [hdv]
    simp only [fdiv_add_eq_ceil]
  · simp [compute_vbit, computeVbitArith, durValueOf, pyFloat, pyFloatCore,
      pyStripList, digitsToNat, pyWhitespace]
    norm_num
    decide

/-- C5: in any reaped coordinator state (terminal tasks have had their worker
handles released), cancelling a task whose record is terminal changes
nothing, cancelling twice equals cancelling once, and cancelling a task that
still has a worker handle drives its persisted record to the single terminal
status `cancelled`. -/
theorem cancel_task_spec (s : CoordState) (tid : String)
    (hreap : ReapedState s) :
    ((∃ r ∈ s.records, r.task_id = tid ∧ r.status ∈ TerminalStatuses) →
      cancel_task tid s = s) ∧
    cancel_task tid (cancel_task tid s) = cancel_task tid s ∧
    (∀ w, alookup s.workers tid = some w →
      ∀ r ∈ (cancel_task tid s).records, r.task_id = tid →
        r.status = "cancelled") := by
  refine ⟨?_, ?_, ?_⟩
  · rintro ⟨r, hr, hrt, hst⟩
    have hw := hreap r hr hst
    rw [hrt] at hw
    exact cancel_task_eq_of_none s tid hw
  · cases hw : alookup s.workers tid with
    | none =>
      rw [cancel_task_eq_of_none s tid hw, cancel_task_eq_of_none s tid hw]
    | some w =>
      cases hrow : alookup s.rows tid with
      | none =>
        set S1 : CoordState := update_queue_record
          { s with
            workers := s.workers.map (fun p =>
              if p.1 = tid then (p.1, { p.2 with cancelRequested := true }) else p)
            rows := s.rows }
          tid { status := some "cancelled", path := some none, error := some none }
          with hS1
        have hkey : cancel_task tid s = S1 := by
          unfold cancel_task
          rw [hw, hrow]
        have hw2 : alookup S1.workers tid
            = some { w with cancelRequested := true } := by
          rw [hS1, update_queue_record_workers]
          have h := alookup_map_key s.workers tid tid
            (fun b => { b with cancelRequested := true })
          rw [if_pos rfl, hw] at h
          exact h
        have hrow2 : alookup S1.rows tid = none := by
          rw [hS1, update_queue_record_rows]
          exact hrow
        have hkey2 : cancel_task tid S1 = update_queue_record
            { S1 with
              workers := S1.workers.map (fun p =>
                if p.1 = tid then (p.1, { p.2 with cancelRequested := true })
                else p)
              rows := S1.rows }
            tid { status := some "cancelled", path := some none, error := some none } := by
          unfold cancel_task
          rw [hw2, hrow2]
        have hWidem : S1.workers.map (fun p =>
            if p.1 = tid then (p.1, { p.2 with cancelRequested := true }) else p)
            = S1.workers := by
          rw [hS1, update_queue_record_workers]
          exact map_key_idem s.workers tid
            (fun b => { b with cancelRequested := true }) (fun b => rfl)
        rw [hkey, hkey2, hWidem]
        show update_queue_record S1 tid _ = S1
        rw [hS1]
        exact update_queue_record_idem _ tid _ (fun r => rfl)
      | some row =>
        set S1 : CoordState := update_queue_record
          { s with
            workers := s.workers.map (fun p =>
              if p.1 = tid then (p.1, { p.2 with cancelRequested := true }) else p)
            rows := s.rows.map (fun p =>
              if p.1 = tid then (p.1, { row with cancelEnabled := false })
              else p) }
          tid { status := some "cancelled", path := some none, error := some none }
          with hS1
        have hkey : cancel_task tid s = S1 := by
          unfold cancel_task
          rw [hw, hrow]
        have hw2 : alookup S1.workers tid
            = some { w with cancelRequested := true } := by
          rw [hS1, update_queue_record_workers]
          have h := alookup_map_key s.workers tid tid
            (fun b => { b with cancelRequested := true })
          rw [if_pos rfl, hw] at h
          exact h
        have hrow2 : alookup S1.rows tid
            = some { row with cancelEnabled := false } := by
          rw [hS1, update_queue_record_rows]
          have h := alookup_map_key s.rows tid tid
            (fun _ => { row with cancelEnabled := false })
          rw [if_pos rfl, hrow] at h
          exact h
        have hkey2 : cancel_task tid S1 = update_queue_record
            { S1 with
              workers := S1.workers.map (fun p =>
                if p.1 = tid then (p.1, { p.2 with cancelRequested := true })
                else p)
              rows := S1.rows.map (fun p =>
                if p.1 = tid then
                  (p.1, { { row with cancelEnabled := false } with
                    cancelEnabled := false })
                else p) }
            tid { status := some "cancelled", path := some none, error := some none } := by
          unfold cancel_task
          rw [hw2, hrow2]
        have hWidem : S1.workers.map (fun p =>
            if p.1 = tid then (p.1, { p.2 with cancelRequested := true }) else p)
            = S1.workers := by
          rw [hS1, update_queue_record_workers]
          exact map_key_idem s.workers tid
            (fun b => { b with cancelRequested := true }) (fun b => rfl)
        have hRidem : S1.rows.map (fun p =>
            if p.1 = tid then
              (p.1, { { row with cancelEnabled := false } with
                cancelEnabled := false })
            else p) = S1.rows := by
          rw [hS1, update_queue_record_rows]
          exact map_key_idem s.rows tid
            (fun _ => { row with cancelEnabled := false }) (fun b => rfl)
        rw [hkey, hkey2, hWidem, hRidem]
        show update_queue_record S1 tid _ = S1
        rw [hS1]
        exact update_queue_record_idem _ tid _ (fun r => rfl)
  · intro w hw r hr hrt
    rw [cancel_task_eq_of_some s tid w hw] at hr
    unfold update_queue_record at hr
    by_cases hfind : (((
        { s with
          workers := s.workers.map (fun p =>
            if p.1 = tid then (p.1, { p.2 with cancelRequested := true }) else p)
          rows := match alookup s.rows tid with
            | some row => s.rows.map (fun p =>
                if p.1 = tid then (p.1, { row with cancelEnabled := false })
                else p)
            | none => s.rows } : CoordState).records.find?
        (fun r => r.task_id = tid))).isSome
    · rw [if_pos hfind] at hr
      simp only at hr
      obtain ⟨r0, hr0, rfl⟩ := List.mem_map.mp hr
      by_cases h0 : r0.task_id = tid
      · rw [if_pos h0]
        rfl
      · rw [if_neg h0] at hrt ⊢
        exact absurd hrt h0
    · rw [if_neg hfind] at hr
      simp only at hr hfind
      exact absurd (List.find?_isSome.mpr ⟨r, hr, by simp [hrt]⟩) hfind

/-- Witness for C5: the terminal task `t0` of the mixed state is unaffected
by cancel, and cancelling the running task `t1` twice equals cancelling it
once. -/
theorem cancel_task_spec_witness :
    cancel_task "t0" exStateMixed = exStateMixed ∧
    cancel_task "t1" (cancel_task "t1" exStateMixed)
      = cancel_task "t1" exStateMixed := by
  have hreap : ReapedState exStateMixed := by
    unfold ReapedState
    decide
  have h0 := cancel_task_spec exStateMixed "t0" hreap
  have h1 := cancel_task_spec exStateMixed "t1" hreap
  exact ⟨h0.1 ⟨exRecDone, by decide, by decide, by decide⟩, h1.2.1⟩

/-- C3 counterexample: in a state whose only task `t1` is waiting in the
pending set, `cancel` is a complete no-op — `t1` stays in the pending set —
and the next admission check still starts it downloading, contradicting the
claim that cancel removes a waiting task from the pending set so that it
never starts. -/
theorem cancel_waiting_counterexample :
    cancel_task "t1" exStateWaiting = exStateWaiting ∧
    alookup (cancel_task "t1" exStateWaiting).pending "t1"
      = some { alive := false, cancelRequested := false } ∧
    (∃ w, alookup (maybe_start_next_waiting_task
        (cancel_task "t1" exStateWaiting)).workers "t1"
      = some w ∧ w.alive = true) := by
  have h1 : cancel_task "t1" exStateWaiting = exStateWaiting := by decide
  have h2 : maybe_start_next_waiting_task exStateWaiting
      = activate_pending_worker "t1" exStateWaiting := by
    unfold maybe_start_next_waiting_task
    rw [if_neg (by decide), if_neg (by decide)]
    have hids : exStateWaiting.pending.map Prod.fst = ["t1"] := by decide
    rw [hids, List.mergeSort_singleton]
  refine ⟨h1, by decide,
    ⟨{ alive := true, cancelRequested := false }, ?_, rfl⟩⟩
  rw [h1, h2]
  decide

/-- C3 (amended): calling cancel with the id of a task that has no entry in
the active worker map — in particular a task that is only waiting in the
pending set — is a no-op: the whole coordinator state, the pending set
included, is unchanged (waiting tasks leave the pending set through
`remove` or through activation, not through `cancel`). -/
theorem cancel_waiting_task_noop (s : CoordState) (tid : String)
    (hw : alookup s.workers tid = none)
    (_hpend : (alookup s.pending tid).isSome) :
    cancel_task tid s = s ∧
    alookup (cancel_task tid s).pending tid = alookup s.pending tid := by
  have h := cancel_task_eq_of_none s tid hw
  exact ⟨h, by rw [h]⟩

/-- Witness for the amended C3 at the concrete waiting-only state. -/
theorem cancel_waiting_task_noop_witness :
    cancel_task "t1" exStateWaiting = exStateWaiting :=
  (cancel_waiting_task_noop exStateWaiting "t1" (by decide) (by decide)).1

/-- C8: removing a task whose row status is `downloading` or `converting` is
rejected as a no-op: the rows, history order, pending set and persisted
records are all unchanged. -/
theorem remove_history_entry_guard (s : CoordState) (tid : String)
    (row : TaskRowState) (hrow : alookup s.rows tid = some row)
    (hst : row.statusCode = "downloading" ∨ row.statusCode = "converting") :
    remove_history_entry tid s = s := by
  unfold remove_history_entry
  rw [hrow]
  have hmem : row.statusCode ∈ ["downloading", "converting"] := by
    rcases hst with h | h <;> simp [h]
  show (if row.statusCode ∈ ["downloading", "converting"] then s else _) = s
  rw [if_pos hmem]

/-- Witness for C8 at the concrete running state. -/
theorem remove_history_entry_guard_witness :
    remove_history_entry "t1" exStateRunning = exStateRunning :=
  remove_history_entry_guard exStateRunning "t1" exRowDownloading (by decide)
    (Or.inl rfl)

/-- C2: dispatching the error event exactly as the worker emits it (the text
under the key `error`) does set the record status to `error` and clear the
path, but the message is lost: `_poll_queue` reads the key `message`, which
worker error events never carry, so the record's error field is removed
instead of storing the text. -/
theorem error_event_dispatch_divergence :
    (dispatchEvent exStateRunningP
        (mkEvent "t1" "error" [("error", EVal.s "boom")])).records
      = [{ exRecDownloadingP with status := "error", path := none, error := none }]
    ∧ (Option.none : Option String) ≠ some "boom" :=
  ⟨by decide, by decide⟩

/-- C4: in every state reachable under sequential mode at most one worker
thread is alive; and in every well-formed state with no running worker and a
non-empty pending set, the admission check activates exactly the pending task
with the oldest `created_at` (now downloading, off the pending set, its
worker started), while every other pending task keeps its pending entry and
its `waiting` row. -/
theorem sequential_admission_spec :
    (∀ s, ReachableSeq s → countAlive s.workers ≤ 1) ∧
    (∀ s : CoordState, has_running_workers s = false → s.pending ≠ [] →
      (s.pending.map Prod.fst).Nodup →
      (∀ tid ∈ s.pending.map Prod.fst, ∃ row,
        alookup s.rows tid = some row ∧ row.statusCode = "waiting") →
      (∀ tid1 tid2, tid1 ∈ s.pending.map Prod.fst →
        tid2 ∈ s.pending.map Prod.fst → tid1 ≠ tid2 →
        task_created_at s tid1 ≠ task_created_at s tid2) →
      ∃ tid ∈ s.pending.map Prod.fst,
        (∀ tid2 ∈ s.pending.map Prod.fst, tid2 ≠ tid →
          task_created_at s tid < task_created_at s tid2) ∧
        maybe_start_next_waiting_task s = activate_pending_worker tid s ∧
        alookup (maybe_start_next_waiting_task s).pending tid = none ∧
        (∃ w, alookup (maybe_start_next_waiting_task s).workers tid = some w ∧
          w.alive = true) ∧
        (∃ row, alookup (maybe_start_next_waiting_task s).rows tid = some row ∧
          row.statusCode = "downloading") ∧
        (∀ tid2 ∈ s.pending.map Prod.fst, tid2 ≠ tid →
          alookup (maybe_start_next_waiting_task s).pending tid2
            = alookup s.pending tid2 ∧
          ∃ row2, alookup (maybe_start_next_waiting_task s).rows tid2
            = some row2 ∧ row2.statusCode = "waiting")) := by
  constructor
  · intro s h
    exact (workersInv_reachable s h).2
  · intro s hrun hne hnd hrows hdist
    obtain ⟨tid, rest, hms⟩ : ∃ tid rest,
        (s.pending.map Prod.fst).mergeSort
          (fun a b => task_created_at s a ≤ task_created_at s b)
          = tid :: rest := by
      cases hm : (s.pending.map Prod.fst).mergeSort
          (fun a b => task_created_at s a ≤ task_created_at s b) with
      | nil =>
        exfalso
        have hperm := List.mergeSort_perm (s.pending.map Prod.fst)
          (fun a b => task_created_at s a ≤ task_created_at s b)
        rw [hm] at hperm
        have hnil := hperm.symm.eq_nil
        rw [List.map_eq_nil_iff] at hnil
        exact hne hnil
      | cons a l => exact ⟨a, l, rfl⟩
    have hperm := List.mergeSort_perm (s.pending.map Prod.fst)
      (fun a b => task_created_at s a ≤ task_created_at s b)
    rw [hms] at hperm
    have hpw := @List.sorted_mergeSort String
      (fun a b => task_created_at s a ≤ task_created_at s b)
      (fun a b c hab hbc => by
        simp only [decide_eq_true_eq] at hab hbc ⊢
        exact le_trans hab hbc)
      (fun a b => by
        simp only [Bool.or_eq_true, decide_eq_true_eq]
        exact le_total _ _)
      (s.pending.map Prod.fst)
    rw [hms] at hpw
    have hhead := (List.pairwise_cons.mp hpw).1
    have htid : tid ∈ s.pending.map Prod.fst :=
      hperm.subset (List.mem_cons_self tid rest)
    have hmin : ∀ tid2 ∈ s.pending.map Prod.fst, tid2 ≠ tid →
        task_created_at s tid < task_created_at s tid2 := by
      intro tid2 h2 h2ne
      have h2mem : tid2 ∈ tid :: rest := hperm.mem_iff.mpr h2
      cases List.mem_cons.mp h2mem with
      | inl he => exact absurd he h2ne
      | inr hr2 =>
        have hle := hhead tid2 hr2
        rw [decide_eq_true_eq] at hle
        exact lt_of_le_of_ne hle
          (hdist tid tid2 htid h2 (fun he => h2ne he.symm))
    have hstart : maybe_start_next_waiting_task s
        = activate_pending_worker tid s := by
      unfold maybe_start_next_waiting_task
      rw [if_neg (by rw [hrun]; simp)]
      have hemp : s.pending.isEmpty = false := by
        cases hp : s.pending
        · exact absurd hp hne
        · rfl
      rw [if_neg (by rw [hemp]; simp)]
      rw [hms]
    obtain ⟨w, hw⟩ := mem_keys_exists_alookup s.pending tid htid
    obtain ⟨row, hrowl, hrowst⟩ := hrows tid htid
    have heff := activate_effects s tid w row hw hrowl
    refine ⟨tid, htid, hmin, hstart, ?_, ?_, ?_, ?_⟩
    · rw [hstart]
      exact heff.1
    · rw [hstart]
      exact ⟨{ w with alive := true }, heff.2.1, rfl⟩
    · rw [hstart]
      exact ⟨rowUpdateStatus row "downloading", heff.2.2.1, rfl⟩
    · intro tid2 h2 h2ne
      rw [hstart]
      obtain ⟨hpend2, hrows2⟩ := heff.2.2.2 tid2 h2ne
      obtain ⟨row2, hrl2, hrs2⟩ := hrows tid2 h2
      refine ⟨hpend2, ⟨row2, ?_, hrs2⟩⟩
      rw [hrows2]
      exact hrl2

/-- Witness for C4: the invariant holds at the initial state, and in the
waiting-only state the admission check activates the single pending task. -/
theorem sequential_admission_spec_witness :
    countAlive initState.workers ≤ 1 ∧
    ∃ tid ∈ exStateWaiting.pending.map Prod.fst,
      maybe_start_next_waiting_task exStateWaiting
        = activate_pending_worker tid exStateWaiting := by
  have h := sequential_admission_spec
  constructor
  · exact h.1 initState Relation.ReflTransGen.refl
  · have hlist : exStateWaiting.pending.map Prod.fst = ["t1"] := by decide
    obtain ⟨tid, htid, _, heq, _⟩ := h.2 exStateWaiting (by decide) (by decide)
      (by decide)
      (by
        intro tid htid
        rw [hlist] at htid
        simp only [List.mem_singleton] at htid
        subst htid
        exact ⟨exRowWaiting, by decide, rfl⟩)
      (by
        intro t1 t2 h1 h2 hne
        rw [hlist] at h1 h2
        simp only [List.mem_singleton] at h1 h2
        exact absurd (h1.trans h2.symm) hne)
    exact ⟨tid, htid, heq⟩

end YtDl
